import Mathlib

/-!
# Verification of the tukan Board Reconciliation & Activity Engine

A shallow embedding of the core pure functions of the tukan repository:

* `src/board/derive.ts` — `deriveBoard`, `reconcileConfig`
* `src/board/navigation.ts` — `findCards`, `resolveCard`, `markCardStarted`,
  `editCardInConfig`
* `src/board/activity.ts` — `getIdlePromotions`

JavaScript `Record<string, T>` objects and `Map<string, T>` maps are embedded
as association lists in insertion order (`List (String × T)`); a `Record`
produced by the surrounding persistence layer always has pairwise-distinct
keys, which theorems assume explicitly where they need it.  JavaScript's
`Map.set` / computed-member assignment replaces an existing binding in place
and otherwise appends, which `mapSet` mirrors.  Epoch-millisecond clocks
(`Date.now()`) are threaded as an explicit `now : Int` parameter.
-/
set_option maxHeartbeats 1000000

/-- First binding for a key in an association list (JS `Record`/`Map` lookup). -/
def mapLookup {α : Type} : List (String × α) → String → Option α
  | [], _ => none
  | (k', v) :: rest, k => if k' = k then some v else mapLookup rest k

/-- JS `Map.set` / `{...obj, [k]: v}`: replace the binding in place if the key
exists, otherwise append the new binding at the end. -/
def mapSet {α : Type} : List (String × α) → String → α → List (String × α)
  | [], k, v => [(k, v)]
  | (k', v') :: rest, k, v =>
    if k' = k then (k, v) :: rest else (k', v') :: mapSet rest k v

/-! ## Data model (`src/board/types.ts`, `src/tmux/types.ts`) -/
structure TmuxPane where
  id : String
  index : Nat
  active : Bool
  command : String
  workingDir : String
deriving Repr, DecidableEq

structure TmuxWindow where
  id : String
  index : Nat
  name : String
  active : Bool
  panes : List TmuxPane
deriving Repr, DecidableEq

structure TmuxSession where
  id : String
  name : String
  windows : List TmuxWindow
deriving Repr, DecidableEq

structure TmuxServer where
  sessions : List TmuxSession
deriving Repr, DecidableEq

structure Card where
  id : String
  name : String
  description : String
  acceptanceCriteria : String
  columnId : String
  sessionName : String
  dir : String
  command : String
  customCommand : Option String
  worktree : Bool
  worktreePath : Option String
  windowId : Option String
  createdAt : Int
  startedAt : Option Int
  closedAt : Option Int
deriving Repr, DecidableEq

structure ColumnDef where
  id : String
  title : String
deriving Repr, DecidableEq

structure CommandDef where
  id : String
  label : String
  template : String
deriving Repr, DecidableEq

structure BoardConfig where
  columns : List ColumnDef
  cards : List (String × Card)
  commands : List CommandDef
  idleTimeoutMs : Option Int
deriving Repr, DecidableEq

structure BoardCard where
  cardId : String
  windowId : Option String
  displayId : String
  sessionName : String
  name : String
  command : String
  workingDir : String
  active : Bool
  started : Bool
  closed : Bool
  uncategorized : Bool
  hasActivity : Bool
  spinning : Bool
  idleTime : Option Int
deriving Repr, DecidableEq

structure BoardColumn where
  id : String
  title : String
  cards : List BoardCard
deriving Repr, DecidableEq

structure ActivityEntry where
  hasActivity : Bool
  lastChangeTime : Int
  spinning : Bool
deriving Repr, DecidableEq

/-- `ActivityMap` (`src/board/activity.ts`). -/
def ActivityMap : Type := List (String × ActivityEntry)

-- Stable column IDs (src/board/types.ts)
def COL_UNASSIGNED : String := "0"

def COL_TODO : String := "1"

def COL_IN_PROGRESS : String := "2"

def COL_REVIEW : String := "3"

def COL_DONE : String := "4"

/-! ## String helpers mirroring the JS string operations used by the code -/
/-- JS `str.replace(pat, rep)` with a one-character string pattern: replaces
only the first occurrence. -/
def replaceFirstCharAux (pat rep : Char) : List Char → List Char
  | [] => []
  | c :: rest => if c = pat then rep :: rest else c :: replaceFirstCharAux pat rep rest

def replaceFirstChar (s : String) (pat rep : Char) : String :=
  ⟨replaceFirstCharAux pat rep s.data⟩

/-- JS `str.includes(sub)` (substring test, `"" ⊆ s` is true). -/
def charsIncl (pat : List Char) : List Char → Bool
  | [] => pat.isEmpty
  | c :: rest => pat.isPrefixOf (c :: rest) || charsIncl pat rest

def strIncludes (s sub : String) : Bool :=
  charsIncl sub.data s.data

/-- JS `str.startsWith(p)`. -/
def strStartsWith (s p : String) : Bool :=
  p.data.isPrefixOf s.data

/-- JS `str.toLowerCase()` (per-character lowering; the identifiers and names
handled here are ASCII). -/
def strToLower (s : String) : String :=
  ⟨s.data.map Char.toLower⟩

/-- JS `str.slice(0, n)`. -/
def strTake (s : String) (n : Nat) : String :=
  ⟨s.data.take n⟩

/-! ## Activity & Idle Detection (`src/board/activity.ts`) -/
def IDLE_PROMOTE_MS : Int := 2 * 60 * 1000

/-- `getIdlePromotions(cards, lastChangeTimes, now, thresholdMs)`: ids of
cards in the In Progress column with a (truthy) `windowId` whose window has a
recorded `lastChangeTime` with `now - lastChange >= thresholdMs`.
JS `if (!card.windowId) continue` treats the empty string as absent. -/
def getIdlePromotions (cards : List (String × Card))
    (lastChangeTimes : List (String × Int)) (now : Int) (thresholdMs : Int) :
    List String :=
  cards.filterMap (fun e =>
    if e.2.columnId ≠ COL_IN_PROGRESS then none
    else match e.2.windowId with
      | none => none
      | some w =>
        if w = "" then none
        else match mapLookup lastChangeTimes w with
          | none => none
          | some lastChange =>
            if now - lastChange ≥ thresholdMs then some e.1 else none)

/-! ## Card Identity Resolution (`src/board/navigation.ts`) -/
structure CardMatch where
  id : String
  card : Card
deriving Repr, DecidableEq

inductive ResolveResult where
  | ok (id : String) (card : Card)
  | error (msg : String)
deriving Repr, DecidableEq

/-- `findCards(cards, query)`: exact key match, then key-prefix match (length
≥ 4), then case-insensitive exact name match, then case-insensitive partial
name match.  The two name tiers are collected in a single pass with an
`else if`, exactly as in the source. -/
def findCards (cards : List (String × Card)) (query : String) : List CardMatch :=
  match mapLookup cards query with
  | some c => [⟨query, c⟩]
  | none =>
    let prefixMatches := cards.filterMap (fun e =>
      if strStartsWith e.1 query && decide (query.length ≥ 4) then some (⟨e.1, e.2⟩ : CardMatch) else none)
    if prefixMatches ≠ [] then prefixMatches
    else
      let lower := strToLower query
      let exactName := cards.filterMap (fun e =>
        if strToLower e.2.name = lower then some (⟨e.1, e.2⟩ : CardMatch) else none)
      let partialName := cards.filterMap (fun e =>
        if strToLower e.2.name ≠ lower && strIncludes (strToLower e.2.name) lower then
          some (⟨e.1, e.2⟩ : CardMatch) else none)
      if exactName ≠ [] then exactName
      else if partialName ≠ [] then partialName
      else []

def noCardFoundMsg (query : String) : String :=
  "No card found matching \"" ++ query ++ "\""

def ambiguousMsg (query : String) (ms : List CardMatch) : String :=
  "Ambiguous match for \"" ++ query ++ "\" — multiple cards found:\n" ++
    String.intercalate "\n" (ms.map (fun m => "  " ++ strTake m.id 8 ++ " " ++ m.card.name))

/-- `resolveCard(cards, query)`: exactly one match ⇒ ok, zero ⇒ not-found
error, several ⇒ ambiguous error enumerating the candidates. -/
def resolveCard (cards : List (String × Card)) (query : String) : ResolveResult :=
  let ms := findCards cards query
  if ms.length = 0 then .error (noCardFoundMsg query)
  else if ms.length > 1 then .error (ambiguousMsg query ms)
  else match ms with
    | m :: _ => .ok m.id m.card
    | [] => .error (noCardFoundMsg query)

/-! ## Card Lifecycle Transitions (`src/board/navigation.ts`) -/
/-- `markCardStarted(config, cardId, windowId)`. -/
def markCardStarted (config : BoardConfig) (cardId : String) (windowId : String)
    (now : Int) : BoardConfig :=
  match mapLookup config.cards cardId with
  | none => config
  | some card =>
    let updated : Card :=
      { card with windowId := some windowId, startedAt := some now,
                  columnId := COL_IN_PROGRESS, closedAt := none }
    { config with cards := mapSet config.cards cardId updated }

structure EditCardFields where
  name : Option String := none
  description : Option String := none
  acceptanceCriteria : Option String := none
  dir : Option String := none
  command : Option String := none
  customCommand : Option String := none
  worktree : Option Bool := none
  worktreePath : Option String := none
deriving Repr, DecidableEq

/-- `editCardInConfig(config, cardId, fields)`: sequential conditional field
updates; setting `command` always also overwrites `customCommand` with the
input's value, and setting `worktree` rewrites `worktreePath`. -/
def editCardInConfig (config : BoardConfig) (cardId : String)
    (fields : EditCardFields) : BoardConfig :=
  match mapLookup config.cards cardId with
  | none => config
  | some card =>
    let u0 := card
    let u1 := match fields.name with
      | some v => { u0 with name := v } | none => u0
    let u2 := match fields.description with
      | some v => { u1 with description := v } | none => u1
    let u3 := match fields.acceptanceCriteria with
      | some v => { u2 with acceptanceCriteria := v } | none => u2
    let u4 := match fields.dir with
      | some v => { u3 with dir := v } | none => u3
    let u5 := match fields.command with
      | some v => { u4 with command := v, customCommand := fields.customCommand }
      | none => u4
    let u6 := match fields.worktree with
      | some v => { u5 with worktree := v,
                            worktreePath := if v then fields.worktreePath else none }
      | none => u5
    { config with cards := mapSet config.cards cardId u6 }

/-- JS truthiness of an optional epoch-millisecond timestamp: absent and the
(never-produced) zero timestamp are falsy. -/
def truthyTime (o : Option Int) : Bool :=
  (o.map (fun t => decide (t ≠ 0))).getD false

/-! ## Board Derivation (`src/board/derive.ts`, `deriveBoard`) -/
/-- All (session name, window) pairs in process-tree enumeration order. -/
def sessionWindows : List TmuxSession → List (String × TmuxWindow)
  | [] => []
  | s :: rest => s.windows.map (fun w => (s.name, w)) ++ sessionWindows rest

/-- `selfPaneId && win.panes.some((p) => p.id === selfPaneId)`. -/
def isSelfWindow (selfPaneId : Option String) (w : TmuxWindow) : Bool :=
  match selfPaneId with
  | some p => w.panes.any (fun pane => pane.id = p)
  | none => false

/-- The windows `deriveBoard` actually walks: every live window except those
hosting the tool itself. -/
def walkedWindows (server : TmuxServer) (selfPaneId : Option String) :
    List (String × TmuxWindow) :=
  (sessionWindows server.sessions).filter (fun sw => !isSelfWindow selfPaneId sw.2)

/-- The `windowToCard` index: `if (card.windowId) windowToCard.set(card.windowId, card)`
over `Object.values(config.cards)`; JS truthiness makes `""` count as unset. -/
def buildWindowToCard (cards : List (String × Card)) : List (String × Card) :=
  cards.foldl (fun acc e =>
    match e.2.windowId with
    | some w => if w = "" then acc else mapSet acc w e.2
    | none => acc) []

def activityFor (activityMap : Option ActivityMap) (winId : String) :
    Option ActivityEntry :=
  match activityMap with
  | some m => mapLookup m winId
  | none => none

/-- The BoardCard emitted for one live window (both the card-owned and the
uncategorized branch of the walk loop). -/
def liveWindowCard (wtc : List (String × Card)) (activity : Option ActivityEntry)
    (now : Int) (sessionName : String) (w : TmuxWindow) : BoardCard :=
  match mapLookup wtc w.id with
  | some card =>
    { cardId := card.id
      windowId := some w.id
      displayId := strTake card.id 8 ++ " " ++ replaceFirstChar w.id '@' '#'
      sessionName := sessionName
      name := card.name
      command := card.command
      workingDir := ((w.panes.head?).map (·.workingDir)).getD card.dir
      active := w.active
      started := true
      closed := false
      uncategorized := false
      hasActivity := (activity.map (·.hasActivity)).getD false
      spinning := (activity.map (·.spinning)).getD false
      idleTime := activity.map (fun a => (now - a.lastChangeTime).fdiv 1000) }
  | none =>
    { cardId := w.id
      windowId := some w.id
      displayId := replaceFirstChar w.id '@' '#'
      sessionName := sessionName
      name := w.name
      command := ((w.panes.head?).map (·.command)).getD ""
      workingDir := ((w.panes.head?).map (·.workingDir)).getD ""
      active := w.active
      started := false
      closed := false
      uncategorized := true
      hasActivity := (activity.map (·.hasActivity)).getD false
      spinning := (activity.map (·.spinning)).getD false
      idleTime := activity.map (fun a => (now - a.lastChangeTime).fdiv 1000) }

/-- The synthetic BoardCard for a card with no matched live window.
`closed: !!card.startedAt` — JS truthiness makes a zero timestamp falsy. -/
def syntheticCard (card : Card) : BoardCard :=
  { cardId := card.id
    windowId := none
    displayId := strTake card.id 8
    sessionName := card.sessionName
    name := card.name
    command := card.command
    workingDir := card.dir
    active := false
    started := false
    closed := truthyTime card.startedAt
    uncategorized := false
    hasActivity := false
    spinning := false
    idleTime := none }

/-- The `seenCardIds` set after the window walk: ids of cards matched to a
walked live window. -/
def seenCardIds (server : TmuxServer) (config : BoardConfig)
    (selfPaneId : Option String) : List String :=
  (walkedWindows server selfPaneId).filterMap
    (fun sw => (mapLookup (buildWindowToCard config.cards) sw.2.id).map (·.id))

/-- Steps 1–3 of `deriveBoard`: the flat `boardCards` list, live windows in
process-tree enumeration order followed by unmatched cards in store order. -/
def produceBoardCards (server : TmuxServer) (config : BoardConfig)
    (selfPaneId : Option String) (activityMap : Option ActivityMap) (now : Int) :
    List BoardCard :=
  (walkedWindows server selfPaneId).map
    (fun sw => liveWindowCard (buildWindowToCard config.cards)
      (activityFor activityMap sw.2.id) now sw.1 sw.2)
  ++ config.cards.filterMap (fun e =>
    if (seenCardIds server config selfPaneId).contains e.2.id then none
    else some (syntheticCard e.2))

/-- The empty per-column buckets (`columnMap` right after its initialization
loop). -/
def bucketInit (config : BoardConfig) : List (String × List BoardCard) :=
  config.columns.foldl (fun m col => mapSet m col.id ([] : List BoardCard)) []

/-- One iteration of the distribution loop of `deriveBoard`: compute `colId`
(`COL_UNASSIGNED` for uncategorized cards, else the owning card's `columnId`,
else the default column), push into that bucket if it exists, otherwise fall
back to the default column's bucket, otherwise silently drop, as in the
source.  `colId` can be undefined when the card lookup fails and there is no
first column. -/
def bucketStep (config : BoardConfig) (m : List (String × List BoardCard))
    (bc : BoardCard) : List (String × List BoardCard) :=
  match (if bc.uncategorized then some COL_UNASSIGNED
      else match mapLookup config.cards bc.cardId with
        | some card => some card.columnId
        | none => (config.columns.head?).map (·.id)) with
  | some c =>
    match mapLookup m c with
    | some bucket => mapSet m c (bucket ++ [bc])
    | none =>
      match (config.columns.head?).map (·.id) with
      | some d =>
        match mapLookup m d with
        | some bucket => mapSet m d (bucket ++ [bc])
        | none => m
      | none => m
  | none =>
    match (config.columns.head?).map (·.id) with
    | some d =>
      match mapLookup m d with
      | some bucket => mapSet m d (bucket ++ [bc])
      | none => m
    | none => m

/-- Steps 4–5 of `deriveBoard`: distribute the BoardCards into the column map. -/
def bucketCards (config : BoardConfig) (boardCards : List BoardCard) :
    List (String × List BoardCard) :=
  boardCards.foldl (bucketStep config) (bucketInit config)

/-- `deriveBoard(server, config, selfPaneId?, activityMap?)`: note the final
`.reverse()` applied to every column's bucket. -/
def deriveBoard (server : TmuxServer) (config : BoardConfig)
    (selfPaneId : Option String) (activityMap : Option ActivityMap) (now : Int) :
    List BoardColumn :=
  config.columns.map (fun col =>
    { id := col.id, title := col.title,
      cards := ((mapLookup (bucketCards config
        (produceBoardCards server config selfPaneId activityMap now)) col.id).getD []).reverse })

/-- The column a produced BoardCard finally lands in (the `colId` computation
plus the missing-bucket fallback), assuming at least one configured column. -/
def destColId (config : BoardConfig) (bc : BoardCard) : Option String :=
  match (if bc.uncategorized then some COL_UNASSIGNED
      else match mapLookup config.cards bc.cardId with
        | some card => some card.columnId
        | none => (config.columns.head?).map (·.id)) with
  | some c =>
    if (config.columns.map (·.id)).contains c then some c
    else (config.columns.head?).map (·.id)
  | none => (config.columns.head?).map (·.id)

/-! ## Reconciliation (`src/board/derive.ts`, `reconcileConfig`) -/
/-- The `windowNames` map: every live window's id mapped to its name. -/
def windowNamesOf (server : TmuxServer) : List (String × String) :=
  (sessionWindows server.sessions).foldl
    (fun acc sw => mapSet acc sw.2.id sw.2.name) []

/-- One loop iteration of `reconcileConfig` on a single card: the updated card
and whether `changed` was set.  JS truthiness: `if (card.windowId)` skips `""`,
`if (!card.closedAt)` treats a zero timestamp as unset, and `&& winName`
requires a nonempty window name for the placeholder-name rewrite. -/
def reconcileCard (wn : List (String × String)) (now : Int) (card : Card) :
    Card × Bool :=
  match card.windowId with
  | none => (card, false)
  | some w =>
    if w = "" then (card, false)
    else match mapLookup wn w with
      | none =>
        -- Window gone — mark as closed
        if truthyTime card.closedAt then (card, false)
        else ({ card with closedAt := some now }, true)
      | some winName =>
        -- Window present — clear closedAt, then maybe adopt the tmux name
        let base :=
          if truthyTime card.closedAt then
            ({ card with closedAt := none }, true)
          else (card, false)
        if strStartsWith card.name "@" && winName ≠ "" then
          ({ base.1 with name := winName }, true)
        else base

/-- The `changed` flag computed by `reconcileConfig`; the source returns the
identical input reference exactly when this is `false`. -/
def reconcileChanged (config : BoardConfig) (server : TmuxServer) (now : Int) :
    Bool :=
  let wn := windowNamesOf server
  config.cards.any (fun e => (reconcileCard wn now e.2).2)

/-- `reconcileConfig(config, server)`: per-card closedAt bookkeeping plus the
placeholder-name rewrite; returns the input itself when nothing changed. -/
def reconcileConfig (config : BoardConfig) (server : TmuxServer) (now : Int) :
    BoardConfig :=
  let wn := windowNamesOf server
  let results := config.cards.map (fun e => (e.1, reconcileCard wn now e.2))
  if results.any (fun e => e.2.2) then
    { config with cards := results.map (fun e => (e.1, e.2.1)) }
  else config

/-! ## Characterizing the derived indexes -/
/-- The `(windowId, card)` entries that `buildWindowToCard` inserts, as a
plain list in insertion order. -/
def truthyWinEntries (cards : List (String × Card)) : List (String × Card) :=
  cards.filterMap (fun e => match e.2.windowId with
    | some w => if w = "" then none else some (w, e.2)
    | none => none)

/-- The card entries after reconciliation, as a pointwise map. -/
def reconciledCards (config : BoardConfig) (server : TmuxServer) (now : Int) :
    List (String × Card) :=
  config.cards.map (fun e => (e.1, (reconcileCard (windowNamesOf server) now e.2).1))

/-! ## Concrete fixtures used by witnesses and counterexamples -/
def samplePane (pid : String) : TmuxPane :=
  { id := pid, index := 0, active := true, command := "zsh", workingDir := "/home/user" }

def sampleWin (wid nm pid : String) (idx : Nat) : TmuxWindow :=
  { id := wid, index := idx, name := nm, active := idx == 0, panes := [samplePane pid] }

def sampleColumns : List ColumnDef :=
  [⟨COL_UNASSIGNED, "Unassigned"⟩, ⟨COL_TODO, "Todo"⟩, ⟨COL_IN_PROGRESS, "In Progress"⟩,
   ⟨COL_REVIEW, "Review"⟩, ⟨COL_DONE, "Done"⟩]

def sampleCard (cid : String) : Card :=
  { id := cid, name := "task " ++ cid, description := "", acceptanceCriteria := "",
    columnId := COL_TODO, sessionName := "main", dir := "/home/user",
    command := "shell", customCommand := none, worktree := false,
    worktreePath := none, windowId := none, createdAt := 1, startedAt := none,
    closedAt := none }

def sampleDefaultConfig : BoardConfig :=
  { columns := sampleColumns, cards := [], commands := [], idleTimeoutMs := some 3000 }

def sampleServer2 : TmuxServer :=
  { sessions := [⟨"$0", "main",
      [sampleWin "@0" "editor" "%0" 0, sampleWin "@1" "shell" "%1" 1]⟩] }

def noColumnsConfig : BoardConfig :=
  { columns := [], cards := [], commands := [], idleTimeoutMs := none }

def sampleSrvEmpty : TmuxServer := { sessions := [] }

def sampleSrv9 : TmuxServer :=
  { sessions := [⟨"$0", "main", [sampleWin "@9" "work" "%9" 0]⟩] }

def sampleC6Config : BoardConfig :=
  { columns := sampleColumns,
    cards := [("c1", { (sampleCard "c1") with columnId := COL_DONE, startedAt := some 5, closedAt := some 7 })],
    commands := [], idleTimeoutMs := none }

/-! ## C7 — idle promotion -/
def inProgressCard (cid : String) (wid : String) : Card :=
  { (sampleCard cid) with columnId := COL_IN_PROGRESS, windowId := some wid }

/-! ## C8 — editCardInConfig -/
def sampleCustomCard : Card :=
  { (sampleCard "c1") with command := "custom", customCommand := some "x" }

def sampleC8Config : BoardConfig :=
  { columns := sampleColumns, cards := [("c1", sampleCustomCard)],
    commands := [], idleTimeoutMs := none }

def sampleC2Card : Card := { (sampleCard "c1") with windowId := some "@9" }

def sampleC2Config : BoardConfig :=
  { columns := sampleColumns, cards := [("c1", sampleC2Card)],
    commands := [], idleTimeoutMs := none }

def sampleC2ClosedCard : Card :=
  { (sampleCard "c1") with windowId := some "@9", closedAt := some 50 }

def sampleC2ClosedConfig : BoardConfig :=
  { columns := sampleColumns, cards := [("c1", sampleC2ClosedCard)],
    commands := [], idleTimeoutMs := none }

def sampleAtCard : Card :=
  { (sampleCard "c1") with name := "@9", windowId := some "@9" }

def sampleAtConfig : BoardConfig :=
  { columns := sampleColumns, cards := [("c1", sampleAtCard)],
    commands := [], idleTimeoutMs := none }

def sampleC3Card : Card :=
  { (sampleCard "c1") with name := "steady", windowId := some "@9" }

def sampleC3Config : BoardConfig :=
  { columns := sampleColumns, cards := [("c1", sampleC3Card)],
    commands := [], idleTimeoutMs := none }

def sampleSrvEmptyName : TmuxServer :=
  { sessions := [⟨"$0", "main", [sampleWin "@9" "" "%9" 0]⟩] }

/-- The four matching tiers, written from the spec's matching-precedence
wording (first non-empty tier wins): exact identifier, identifier prefix for
queries of length ≥ 4, case-insensitive exact name, case-insensitive
substring name.  Used to check `findCards` against the spec. -/
def findCardsSpecTiers (cards : List (String × Card)) (query : String) :
    List CardMatch :=
  let tier1 := cards.filterMap (fun e =>
    if e.1 = query then some (⟨e.1, e.2⟩ : CardMatch) else none)
  let tier2 := if query.length ≥ 4 then
      cards.filterMap (fun e =>
        if strStartsWith e.1 query then some (⟨e.1, e.2⟩ : CardMatch) else none)
    else []
  let tier3 := cards.filterMap (fun e =>
    if strToLower e.2.name = strToLower query then some (⟨e.1, e.2⟩ : CardMatch)
    else none)
  let tier4 := cards.filterMap (fun e =>
    if strIncludes (strToLower e.2.name) (strToLower query) then
      some (⟨e.1, e.2⟩ : CardMatch) else none)
  if tier1 ≠ [] then tier1
  else if tier2 ≠ [] then tier2
  else if tier3 ≠ [] then tier3
  else if tier4 ≠ [] then tier4
  else []

def aaaCards : List (String × Card) :=
  [("aaaa1111", { (sampleCard "aaaa1111") with name := "Fix login" }),
   ("aaaa2222", { (sampleCard "aaaa2222") with name := "Fix logout" })]

def sampleC1Config : BoardConfig :=
  { columns := sampleColumns,
    cards := [("ca", { (sampleCard "ca") with windowId := some "@1", columnId := COL_IN_PROGRESS, startedAt := some 10 }),
      ("cb", sampleCard "cb")],
    commands := [], idleTimeoutMs := none }

/-! ## Theorems -/

/-! ## Association-list lemmas -/
theorem mapLookup_mapSet {α : Type} (m : List (String × α)) (k k' : String) (v : α) :
    mapLookup (mapSet m k v) k' = if k = k' then some v else mapLookup m k' := by
  induction m with
  | nil =>
    by_cases h : k = k' <;> simp [mapSet, mapLookup, h]
  | cons e rest ih =>
    obtain ⟨ke, ve⟩ := e
    by_cases h1 : ke = k
    · subst h1
      by_cases h2 : ke = k' <;> simp [mapSet, mapLookup, h2]
    · by_cases h2 : ke = k'
      · subst h2
        have : k ≠ ke := fun h => h1 h.symm
        simp [mapSet, mapLookup, h1, this]
      · simp [mapSet, mapLookup, h1, h2, ih]

theorem mapLookup_eq_none_iff {α : Type} (m : List (String × α)) (k : String) :
    mapLookup m k = none ↔ k ∉ m.map Prod.fst := by
  induction m with
  | nil => simp [mapLookup]
  | cons e rest ih =>
    obtain ⟨ke, ve⟩ := e
    by_cases h : ke = k
    · subst h
      simp [mapLookup]
    · have hne : k ≠ ke := fun hh => h hh.symm
      simp only [mapLookup, if_neg h, List.map_cons, List.mem_cons, not_or]
      constructor
      · intro hnone
        exact ⟨hne, ih.mp hnone⟩
      · intro hnot
        exact ih.mpr hnot.2

theorem mapSet_absent {α : Type} (m : List (String × α)) (k : String) (v : α)
    (h : mapLookup m k = none) : mapSet m k v = m ++ [(k, v)] := by
  induction m with
  | nil => simp [mapSet]
  | cons e rest ih =>
    obtain ⟨ke, ve⟩ := e
    by_cases hk : ke = k
    · subst hk
      simp [mapLookup] at h
    · simp [mapLookup, hk] at h
      simp [mapSet, hk, ih h]

theorem mapLookup_mem {α : Type} (m : List (String × α)) (k : String) (v : α)
    (h : mapLookup m k = some v) : (k, v) ∈ m := by
  induction m with
  | nil => simp [mapLookup] at h
  | cons e rest ih =>
    obtain ⟨ke, ve⟩ := e
    by_cases hk : ke = k
    · subst hk
      simp [mapLookup] at h
      simp [h]
    · simp [mapLookup, hk] at h
      exact List.mem_cons_of_mem _ (ih h)

theorem mapLookup_of_mem_nodup {α : Type} (m : List (String × α)) (k : String)
    (v : α) (hnd : (m.map Prod.fst).Nodup) (hmem : (k, v) ∈ m) :
    mapLookup m k = some v := by
  induction m with
  | nil => simp at hmem
  | cons e rest ih =>
    obtain ⟨ke, ve⟩ := e
    simp only [List.map_cons, List.nodup_cons] at hnd
    rcases List.mem_cons.mp hmem with h | h
    · injection h with h1 h2
      subst h1
      subst h2
      simp [mapLookup]
    · have hne : ke ≠ k := by
        intro hkk
        subst hkk
        exact hnd.1 ((List.mem_map).mpr ⟨(ke, v), h, rfl⟩)
      simp [mapLookup, hne, ih hnd.2 h]

theorem mem_mapSet {α : Type} (m : List (String × α)) (k : String) (v : α)
    (e : String × α) (h : e ∈ mapSet m k v) : e = (k, v) ∨ e ∈ m := by
  induction m with
  | nil => simpa [mapSet] using h
  | cons e' rest ih =>
    obtain ⟨ke, ve⟩ := e'
    by_cases hk : ke = k
    · subst hk
      simp only [mapSet, if_pos rfl] at h
      rcases List.mem_cons.mp h with h | h
      · exact Or.inl h
      · exact Or.inr (List.mem_cons_of_mem _ h)
    · simp only [mapSet, if_neg hk] at h
      rcases List.mem_cons.mp h with h | h
      · exact Or.inr (h ▸ List.mem_cons_self _ _)
      · rcases ih h with h | h
        · exact Or.inl h
        · exact Or.inr (List.mem_cons_of_mem _ h)

theorem mapLookup_map_entries {α β : Type} (m : List (String × α))
    (g : String × α → β) (k : String) (v : α)
    (hnd : (m.map Prod.fst).Nodup) (hmem : (k, v) ∈ m) :
    mapLookup (m.map (fun e => (e.1, g e))) k = some (g (k, v)) := by
  have hk : ((m.map (fun e => (e.1, g e))).map Prod.fst).Nodup := by
    simpa [List.map_map, Function.comp] using hnd
  exact mapLookup_of_mem_nodup _ _ _ hk
    ((List.mem_map).mpr ⟨(k, v), hmem, rfl⟩)

theorem mapLookup_append {α : Type} (m m' : List (String × α)) (k : String) :
    mapLookup (m ++ m') k =
      match mapLookup m k with
      | some v => some v
      | none => mapLookup m' k := by
  induction m with
  | nil => simp [mapLookup]
  | cons e rest ih =>
    obtain ⟨ke, ve⟩ := e
    by_cases h : ke = k <;> simp [mapLookup, h, ih]

theorem filterMap_congr_mem {α β : Type} (l : List α) (f g : α → Option β)
    (h : ∀ a ∈ l, f a = g a) : l.filterMap f = l.filterMap g := by
  induction l with
  | nil => rfl
  | cons a rest ih =>
    have ha := h a (List.mem_cons_self a rest)
    have hr := ih (fun x hx => h x (List.mem_cons_of_mem a hx))
    simp [List.filterMap_cons, ha, hr]

theorem foldl_filterMap_step {α β γ : Type} (l : List α) (f : α → Option β)
    (g : γ → β → γ) (acc : γ) :
    (l.filterMap f).foldl g acc =
      l.foldl (fun m x => match f x with | some y => g m y | none => m) acc := by
  induction l generalizing acc with
  | nil => rfl
  | cons a rest ih =>
    cases hfa : f a <;> simp [List.filterMap_cons, hfa, ih]

theorem foldl_mapSet_fresh {α β : Type} (keyOf : β → String) (valOf : β → α) :
    ∀ (l : List β) (acc : List (String × α)),
      (∀ x ∈ l, mapLookup acc (keyOf x) = none) → (l.map keyOf).Nodup →
      l.foldl (fun m x => mapSet m (keyOf x) (valOf x)) acc =
        acc ++ l.map (fun x => (keyOf x, valOf x)) := by
  intro l
  induction l with
  | nil => intro acc _ _; simp
  | cons a rest ih =>
    intro acc hfresh hnd
    simp only [List.map_cons, List.nodup_cons] at hnd
    have ha : mapLookup acc (keyOf a) = none := hfresh a (List.mem_cons_self a rest)
    have hstep : mapSet acc (keyOf a) (valOf a) = acc ++ [(keyOf a, valOf a)] :=
      mapSet_absent _ _ _ ha
    have hfresh' : ∀ x ∈ rest, mapLookup (acc ++ [(keyOf a, valOf a)]) (keyOf x) = none := by
      intro x hx
      have hne : keyOf a ≠ keyOf x := by
        intro hEq
        exact hnd.1 (hEq ▸ (List.mem_map).mpr ⟨x, hx, rfl⟩)
      rw [mapLookup_append, hfresh x (List.mem_cons_of_mem a hx)]
      simp [mapLookup, hne]
    simp only [List.foldl_cons, hstep]
    rw [ih (acc ++ [(keyOf a, valOf a)]) hfresh' hnd.2]
    simp

/-- `mapLookup` over a fold of unconditional `mapSet`s fails exactly when the
key was in neither the seed nor the folded entries. -/
theorem mapLookup_foldl_mapSet_none {α β : Type} (keyOf : β → String)
    (valOf : β → α) :
    ∀ (l : List β) (acc : List (String × α)) (k : String),
      mapLookup (l.foldl (fun m x => mapSet m (keyOf x) (valOf x)) acc) k = none ↔
        (mapLookup acc k = none ∧ ∀ x ∈ l, keyOf x ≠ k) := by
  intro l
  induction l with
  | nil => intro acc k; simp
  | cons a rest ih =>
    intro acc k
    simp only [List.foldl_cons]
    rw [ih]
    rw [mapLookup_mapSet]
    constructor
    · intro ⟨h1, h2⟩
      by_cases hk : keyOf a = k
      · simp [hk] at h1
      · exact ⟨by simpa [hk] using h1, by
          intro x hx
          rcases List.mem_cons.mp hx with rfl | hx'
          · exact hk
          · exact h2 x hx'⟩
    · intro ⟨h1, h2⟩
      have hk : keyOf a ≠ k := h2 a (List.mem_cons_self a rest)
      exact ⟨by simpa [hk] using h1, fun x hx => h2 x (List.mem_cons_of_mem a hx)⟩

theorem buildWindowToCard_eq (cards : List (String × Card))
    (hnd : ((truthyWinEntries cards).map Prod.fst).Nodup) :
    buildWindowToCard cards = truthyWinEntries cards := by
  have hfold : buildWindowToCard cards =
      (truthyWinEntries cards).foldl (fun m e => mapSet m e.1 e.2) [] := by
    rw [truthyWinEntries, foldl_filterMap_step]
    unfold buildWindowToCard
    congr 1
    funext m e
    cases h : e.2.windowId with
    | none => simp [h]
    | some w => by_cases hw : w = "" <;> simp [h, hw]
  rw [hfold]
  have := foldl_mapSet_fresh (fun e : String × Card => e.1) (fun e => e.2)
    (truthyWinEntries cards) [] (by intro x _; simp [mapLookup]) (by simpa using hnd)
  simpa using this

theorem mem_truthyWinEntries (cards : List (String × Card)) (w : String)
    (c : Card) :
    (w, c) ∈ truthyWinEntries cards ↔
      (∃ e ∈ cards, (e : String × Card).2 = c) ∧ c.windowId = some w ∧ w ≠ "" := by
  unfold truthyWinEntries
  rw [List.mem_filterMap]
  constructor
  · rintro ⟨e, he, heq⟩
    cases hwin : e.2.windowId with
    | none => simp [hwin] at heq
    | some w' =>
      by_cases hw' : w' = ""
      · simp [hwin, hw'] at heq
      · simp only [hwin, if_neg hw'] at heq
        have hp : (w', e.2) = (w, c) := Option.some.inj heq
        injection hp with h1 h2
        subst h1
        subst h2
        exact ⟨⟨e, he, rfl⟩, hwin, hw'⟩
  · rintro ⟨⟨e, he, rfl⟩, hwin, hw⟩
    exact ⟨e, he, by simp [hwin, hw]⟩

theorem mapLookup_windowNamesOf_none (server : TmuxServer) (w : String) :
    mapLookup (windowNamesOf server) w = none ↔
      w ∉ (sessionWindows server.sessions).map (fun sw => sw.2.id) := by
  unfold windowNamesOf
  rw [mapLookup_foldl_mapSet_none (fun sw : String × TmuxWindow => sw.2.id)
    (fun sw => sw.2.name)]
  simp only [mapLookup, true_and]
  constructor
  · intro h hmem
    rcases (List.mem_map).mp hmem with ⟨sw, hsw, heq⟩
    exact h sw hsw heq
  · intro h sw hsw heq
    exact h (heq ▸ (List.mem_map).mpr ⟨sw, hsw, rfl⟩)

/-! ## Bucketing lemmas -/
theorem map_congr_mem {α β : Type} (l : List α) (f g : α → β)
    (h : ∀ a ∈ l, f a = g a) : l.map f = l.map g := by
  induction l with
  | nil => rfl
  | cons a rest ih =>
    simp only [List.map_cons]
    rw [h a (List.mem_cons_self a rest), ih (fun x hx => h x (List.mem_cons_of_mem a hx))]

theorem bucketInit_lookup (config : BoardConfig) (c : String) :
    mapLookup (bucketInit config) c =
      if (config.columns.map (·.id)).contains c then some [] else none := by
  unfold bucketInit
  suffices h : ∀ (cols : List ColumnDef) (m₀ : List (String × List BoardCard)),
      mapLookup (cols.foldl (fun m col => mapSet m col.id ([] : List BoardCard)) m₀) c =
        if (cols.map (·.id)).contains c then some [] else mapLookup m₀ c by
    rw [h config.columns []]
    simp [mapLookup]
  intro cols
  induction cols with
  | nil => intro m₀; simp
  | cons col rest ih =>
    intro m₀
    simp only [List.foldl_cons]
    rw [ih (mapSet m₀ col.id [])]
    rw [mapLookup_mapSet]
    by_cases h1 : c ∈ rest.map (·.id)
    · simp [h1]
    · by_cases h2 : col.id = c
      · simp [h1, h2]
      · have h2' : ¬c = col.id := fun h => h2 h.symm
        simp [h1, h2, h2']

theorem destColId_total (config : BoardConfig) (bc : BoardCard)
    (hne : config.columns ≠ []) :
    ∃ d, destColId config bc = some d ∧
      (config.columns.map (·.id)).contains d = true := by
  obtain ⟨col0, rest, hcols⟩ : ∃ col0 rest, config.columns = col0 :: rest := by
    cases hc : config.columns with
    | nil => exact absurd hc hne
    | cons a b => exact ⟨a, b, rfl⟩
  have hdflt : (config.columns.head?).map (·.id) = some col0.id := by
    rw [hcols]; rfl
  have hdmem : (config.columns.map (·.id)).contains col0.id = true := by
    rw [hcols]
    simp [List.contains_cons]
  unfold destColId
  rw [hdflt]
  rcases hraw : (if bc.uncategorized = true then some COL_UNASSIGNED
      else match mapLookup config.cards bc.cardId with
        | some card => some card.columnId
        | none => some col0.id) with _ | c
  · exact ⟨col0.id, rfl, hdmem⟩
  · by_cases hc : (config.columns.map (·.id)).contains c = true
    · exact ⟨c, by simp only [if_pos hc], hc⟩
    · exact ⟨col0.id, by simp only [if_neg hc], hdmem⟩

/-- Invariant of the distribution loop: with at least one configured column,
every bucket's content is exactly the produced BoardCards destined to it, in
production order. -/
theorem bucket_foldl_lookup (config : BoardConfig) (hne : config.columns ≠ []) :
    ∀ (bcs : List BoardCard) (m : List (String × List BoardCard))
      (g : String → List BoardCard),
      (∀ c, mapLookup m c =
        if (config.columns.map (·.id)).contains c then some (g c) else none) →
      ∀ c, mapLookup (bcs.foldl (bucketStep config) m) c =
        if (config.columns.map (·.id)).contains c
        then some (g c ++ bcs.filter (fun bc => destColId config bc = some c))
        else none := by
  obtain ⟨col0, crest, hcols⟩ : ∃ col0 crest, config.columns = col0 :: crest := by
    cases hc : config.columns with
    | nil => exact absurd hc hne
    | cons a b => exact ⟨a, b, rfl⟩
  have hdflt : (config.columns.head?).map (·.id) = some col0.id := by
    rw [hcols]; rfl
  have hdmem : (config.columns.map (·.id)).contains col0.id = true := by
    rw [hcols]; simp [List.contains_cons]
  intro bcs
  induction bcs with
  | nil =>
    intro m g hm c
    have h := hm c
    by_cases hc : (config.columns.map (·.id)).contains c = true
    · simpa [hc] using h
    · simpa [hc] using h
  | cons bc rest ih =>
    intro m g hm c
    obtain ⟨d, hdm, hstep, hdest⟩ :
        ∃ d, (config.columns.map (·.id)).contains d = true ∧
          bucketStep config m bc = mapSet m d (g d ++ [bc]) ∧
          destColId config bc = some d := by
      rcases hraw : (if bc.uncategorized = true then some COL_UNASSIGNED
          else match mapLookup config.cards bc.cardId with
            | some card => some card.columnId
            | none => (config.columns.head?).map (·.id)) with _ | c0
      · refine ⟨col0.id, hdmem, ?_, ?_⟩
        · unfold bucketStep
          rw [hraw, hdflt]
          have h := hm col0.id
          rw [if_pos hdmem] at h
          simp only [h]
        · unfold destColId
          rw [hraw]
          exact hdflt
      · by_cases hc0 : (config.columns.map (·.id)).contains c0 = true
        · refine ⟨c0, hc0, ?_, ?_⟩
          · unfold bucketStep
            rw [hraw]
            have h := hm c0
            rw [if_pos hc0] at h
            simp only [h]
          · unfold destColId
            rw [hraw]
            simp only [if_pos hc0]
        · refine ⟨col0.id, hdmem, ?_, ?_⟩
          · unfold bucketStep
            rw [hraw]
            have h := hm c0
            rw [if_neg hc0] at h
            have h2 := hm col0.id
            rw [if_pos hdmem] at h2
            simp only [h, hdflt, h2]
          · unfold destColId
            rw [hraw, hdflt]
            simp only [if_neg hc0]
    simp only [List.foldl_cons]
    rw [hstep]
    have hm' : ∀ c', mapLookup (mapSet m d (g d ++ [bc])) c' =
        if (config.columns.map (·.id)).contains c'
        then some (if d = c' then g c' ++ [bc] else g c') else none := by
      intro c'
      rw [mapLookup_mapSet]
      by_cases hdc : d = c'
      · subst hdc
        rw [hdm]
        simp
      · rw [if_neg hdc, hm c']
        by_cases hc' : (config.columns.map (·.id)).contains c' = true
        · rw [if_pos hc', if_pos hc', if_neg hdc]
        · rw [if_neg hc', if_neg hc']
    have hrec := ih (mapSet m d (g d ++ [bc]))
      (fun c' => if d = c' then g c' ++ [bc] else g c') hm' c
    rw [hrec]
    by_cases hc : (config.columns.map (·.id)).contains c = true
    · rw [if_pos hc, if_pos hc]
      congr 1
      by_cases hdc : d = c
      · subst hdc
        rw [if_pos rfl]
        rw [List.filter_cons]
        simp only [hdest, decide_eq_true_eq, if_pos rfl]
        simp
      · rw [if_neg hdc]
        rw [List.filter_cons]
        have : ¬(destColId config bc = some c) := by
          rw [hdest]
          intro hcc
          exact hdc (Option.some.inj hcc)
        simp [this]
    · rw [if_neg hc, if_neg hc]

theorem contains_of_mem (l : List String) (a : String) (h : a ∈ l) :
    l.contains a = true := by
  induction l with
  | nil => simp at h
  | cons x rest ih =>
    rcases List.mem_cons.mp h with rfl | h'
    · simp [List.contains_cons]
    · simp only [List.contains_cons, Bool.or_eq_true]
      exact Or.inr (ih h')

theorem bucketCards_lookup (config : BoardConfig) (hne : config.columns ≠ [])
    (bcs : List BoardCard) (c : String)
    (hc : (config.columns.map (·.id)).contains c = true) :
    mapLookup (bucketCards config bcs) c =
      some (bcs.filter (fun bc => destColId config bc = some c)) := by
  unfold bucketCards
  have h := bucket_foldl_lookup config hne bcs (bucketInit config) (fun _ => [])
    (fun c' => bucketInit_lookup config c') c
  rw [h, if_pos hc]
  simp

/-- Structure of the derived board: columns in configured order, each column
holding the produced BoardCards destined for it, reversed. -/
theorem deriveBoard_eq_filtered (server : TmuxServer) (config : BoardConfig)
    (selfPaneId : Option String) (activityMap : Option ActivityMap) (now : Int)
    (hne : config.columns ≠ []) :
    deriveBoard server config selfPaneId activityMap now =
      config.columns.map (fun col =>
        { id := col.id, title := col.title,
          cards := ((produceBoardCards server config selfPaneId activityMap now).filter
            (fun bc => destColId config bc = some col.id)).reverse }) := by
  unfold deriveBoard
  apply map_congr_mem
  intro col hcol
  have hc : (config.columns.map (·.id)).contains col.id = true :=
    contains_of_mem _ _ ((List.mem_map).mpr ⟨col, hcol, rfl⟩)
  rw [bucketCards_lookup config hne _ col.id hc]
  rfl

/-! ## Counting lemmas -/
theorem sum_map_add_split {α : Type} (l : List α) (f g : α → Nat) :
    (l.map (fun x => f x + g x)).sum = (l.map f).sum + (l.map g).sum := by
  induction l with
  | nil => rfl
  | cons a rest ih =>
    simp only [List.map_cons, List.sum_cons, ih]
    omega

theorem sum_indicator_one (ids : List String) (i₀ : String) (hnd : ids.Nodup)
    (hmem : i₀ ∈ ids) :
    (ids.map (fun i => if i₀ = i then (1 : Nat) else 0)).sum = 1 := by
  induction ids with
  | nil => simp at hmem
  | cons i rest ih =>
    simp only [List.nodup_cons] at hnd
    rcases List.mem_cons.mp hmem with rfl | h'
    · have hz : (rest.map (fun i => if i₀ = i then (1 : Nat) else 0)).sum = 0 := by
        apply List.sum_eq_zero
        intro x hx
        rcases (List.mem_map).mp hx with ⟨j, hj, hjx⟩
        have : i₀ ≠ j := fun h => hnd.1 (h ▸ hj)
        simp [this] at hjx
        omega
      simp only [List.map_cons, List.sum_cons]
      simp [hz]
    · have hne : i₀ ≠ i := fun h => hnd.1 (h ▸ h')
      simp only [List.map_cons, if_neg hne, List.sum_cons]
      rw [ih hnd.2 h']

/-- A total destination function partitions a list: the per-destination filter
lengths over distinct ids sum to the whole length. -/
theorem sum_filter_lengths {α : Type} (ids : List String) (f : α → Option String)
    (l : List α) (hnd : ids.Nodup) (hf : ∀ a ∈ l, ∃ i, f a = some i ∧ i ∈ ids) :
    (ids.map (fun i => (l.filter (fun a => f a = some i)).length)).sum = l.length := by
  induction l with
  | nil =>
    apply List.sum_eq_zero
    intro x hx
    rcases (List.mem_map).mp hx with ⟨i, _, hix⟩
    simp at hix
    omega
  | cons a rest ih =>
    obtain ⟨i₀, hfa, hi₀⟩ := hf a (List.mem_cons_self a rest)
    have hsplit : ∀ i, ((a :: rest).filter (fun x => f x = some i)).length =
        (if i₀ = i then 1 else 0) + (rest.filter (fun x => f x = some i)).length := by
      intro i
      rw [List.filter_cons]
      by_cases hii : i₀ = i
      · subst hii
        simp [hfa, Nat.add_comm]
      · have : ¬(f a = some i) := by
          rw [hfa]
          intro hcc
          exact hii (Option.some.inj hcc)
        simp [this, hii]
    have hmap : ids.map (fun i => ((a :: rest).filter (fun x => f x = some i)).length) =
        ids.map (fun i => (if i₀ = i then 1 else 0) +
          (rest.filter (fun x => f x = some i)).length) :=
      map_congr_mem _ _ _ (fun i _ => hsplit i)
    rw [hmap, sum_map_add_split, sum_indicator_one ids i₀ hnd hi₀,
      ih (fun x hx => hf x (List.mem_cons_of_mem a hx))]
    simp [Nat.add_comm]

theorem countP_congr_mem {α : Type} (l : List α) (p q : α → Bool)
    (h : ∀ a ∈ l, p a = q a) : l.countP p = l.countP q := by
  induction l with
  | nil => rfl
  | cons a rest ih =>
    rw [List.countP_cons, List.countP_cons,
      h a (List.mem_cons_self a rest),
      ih (fun x hx => h x (List.mem_cons_of_mem a hx))]

theorem length_filterMap_guard {α β : Type} (l : List α) (p : α → Bool)
    (f : α → β) :
    (l.filterMap (fun a => if p a then none else some (f a))).length =
      l.countP (fun a => !p a) := by
  induction l with
  | nil => rfl
  | cons a rest ih =>
    rw [List.filterMap_cons, List.countP_cons]
    by_cases hp : p a = true
    · simp [hp, ih]
    · simp only [Bool.not_eq_true] at hp
      simp [hp, ih]

theorem nodup_keys_entry_eq {α : Type} (l : List (String × α))
    (hk : (l.map Prod.fst).Nodup) (e e' : String × α)
    (he : e ∈ l) (he' : e' ∈ l) (hfst : e.1 = e'.1) : e = e' := by
  have h1 : mapLookup l e.1 = some e.2 := mapLookup_of_mem_nodup l e.1 e.2 hk he
  have h2 : mapLookup l e'.1 = some e'.2 := mapLookup_of_mem_nodup l e'.1 e'.2 hk he'
  rw [hfst] at h1
  rw [h1] at h2
  have := Option.some.inj h2
  exact Prod.ext hfst this

theorem contains_iff_mem (l : List String) (a : String) :
    l.contains a = true ↔ a ∈ l := by
  induction l with
  | nil => simp
  | cons x rest ih => simp [List.contains_cons, ih]

theorem truthyKeys_eq (cards : List (String × Card))
    (he : ∀ e ∈ cards, (e : String × Card).2.windowId ≠ some "") :
    (truthyWinEntries cards).map Prod.fst =
      cards.filterMap (fun e => e.2.windowId) := by
  induction cards with
  | nil => rfl
  | cons e rest ih =>
    have hee := he e (List.mem_cons_self e rest)
    have ihr := ih (fun x hx => he x (List.mem_cons_of_mem e hx))
    unfold truthyWinEntries at ihr ⊢
    rw [List.filterMap_cons, List.filterMap_cons]
    cases hw : e.2.windowId with
    | none => simpa [hw] using ihr
    | some w =>
      have hwne : w ≠ "" := by
        intro hww
        exact hee (hww ▸ hw)
      simp only [hw, if_neg hwne, List.map_cons]
      rw [ihr]

/-- Membership in `seenCardIds`, for a well-formed store: a stored card's id
was seen during the window walk iff its windowId names a walked live window. -/
theorem seen_contains_iff (server : TmuxServer) (config : BoardConfig)
    (selfPaneId : Option String)
    (hk : (config.cards.map Prod.fst).Nodup)
    (hi : ∀ e ∈ config.cards, (e : String × Card).2.id = e.1)
    (htw : ((truthyWinEntries config.cards).map Prod.fst).Nodup)
    (e : String × Card) (he : e ∈ config.cards) :
    (seenCardIds server config selfPaneId).contains e.2.id = true ↔
      ∃ w, e.2.windowId = some w ∧ w ≠ "" ∧
        w ∈ (walkedWindows server selfPaneId).map (fun sw => sw.2.id) := by
  rw [contains_iff_mem]
  unfold seenCardIds
  rw [buildWindowToCard_eq config.cards htw]
  rw [List.mem_filterMap]
  constructor
  · rintro ⟨sw, hsw, hlook⟩
    rcases hmap : mapLookup (truthyWinEntries config.cards) sw.2.id with _ | c'
    · rw [hmap] at hlook
      exact Option.noConfusion hlook
    · rw [hmap] at hlook
      simp only [Option.map_some'] at hlook
      have hcid : c'.id = e.2.id := Option.some.inj hlook
      have hmem := mapLookup_mem _ _ _ hmap
      rcases (mem_truthyWinEntries config.cards sw.2.id c').mp hmem with
        ⟨⟨e', he', he'2⟩, hwin, hwne⟩
      have hkey : e'.1 = e.1 := by
        rw [← hi e' he', ← hi e he, he'2, hcid]
      have hee : e' = e := nodup_keys_entry_eq config.cards hk e' e he' he hkey
      subst hee
      exact ⟨sw.2.id, he'2 ▸ hwin, hwne,
        (List.mem_map).mpr ⟨sw, hsw, rfl⟩⟩
  · rintro ⟨w, hw1, hw2, hw3⟩
    rcases (List.mem_map).mp hw3 with ⟨sw, hsw, hswid⟩
    have hmem : (w, e.2) ∈ truthyWinEntries config.cards :=
      (mem_truthyWinEntries config.cards w e.2).mpr ⟨⟨e, he, rfl⟩, hw1, hw2⟩
    have hlook : mapLookup (truthyWinEntries config.cards) w = some e.2 :=
      mapLookup_of_mem_nodup _ _ _ htw hmem
    exact ⟨sw, hsw, by rw [hswid, hlook]; rfl⟩

/-- Length of the produced BoardCards list for a well-formed store: one per
walked live window plus one per card with no walked live window. -/
theorem produceBoardCards_length (server : TmuxServer) (config : BoardConfig)
    (selfPaneId : Option String) (activityMap : Option ActivityMap) (now : Int)
    (hk : (config.cards.map Prod.fst).Nodup)
    (hi : ∀ e ∈ config.cards, (e : String × Card).2.id = e.1)
    (he : ∀ e ∈ config.cards, (e : String × Card).2.windowId ≠ some "")
    (hw : (config.cards.filterMap (fun e => e.2.windowId)).Nodup) :
    (produceBoardCards server config selfPaneId activityMap now).length =
      (walkedWindows server selfPaneId).length +
        config.cards.countP (fun e =>
          match e.2.windowId with
          | none => true
          | some w =>
            !((walkedWindows server selfPaneId).map (fun sw => sw.2.id)).contains w) := by
  have htw : ((truthyWinEntries config.cards).map Prod.fst).Nodup := by
    rw [truthyKeys_eq config.cards he]
    exact hw
  unfold produceBoardCards
  rw [List.length_append, List.length_map]
  congr 1
  rw [length_filterMap_guard]
  apply countP_congr_mem
  intro e he'
  have hiff := seen_contains_iff server config selfPaneId hk hi htw e he'
  cases hwin : e.2.windowId with
  | none =>
    cases hb : (seenCardIds server config selfPaneId).contains e.2.id with
    | false => simp [hwin]
    | true =>
      obtain ⟨w, hw1, -, -⟩ := hiff.mp hb
      rw [hwin] at hw1
      exact Option.noConfusion hw1
  | some w =>
    have hwne : w ≠ "" := by
      intro hww
      exact he e he' (hww ▸ hwin)
    cases hb : (seenCardIds server config selfPaneId).contains e.2.id with
    | false =>
      have hnotin : w ∉ (walkedWindows server selfPaneId).map (fun sw => sw.2.id) := by
        intro hin
        have := hiff.mpr ⟨w, hwin, hwne, hin⟩
        rw [hb] at this
        exact Bool.noConfusion this
      have hcf : ((walkedWindows server selfPaneId).map (fun sw => sw.2.id)).contains w = false := by
        cases hcc : ((walkedWindows server selfPaneId).map (fun sw => sw.2.id)).contains w with
        | false => rfl
        | true => exact absurd ((contains_iff_mem _ _).mp hcc) hnotin
      simp only [hb, hwin, hcf]
    | true =>
      obtain ⟨w', hw1, -, hw3⟩ := hiff.mp hb
      rw [hwin] at hw1
      have hww : w = w' := Option.some.inj hw1
      subst hww
      have hct := contains_of_mem _ _ hw3
      simp only [hb, hwin, hct]

/-- Total BoardCard count over the derived board, for a well-formed store with
at least one configured column. -/
theorem deriveBoard_total_count (server : TmuxServer) (config : BoardConfig)
    (selfPaneId : Option String) (activityMap : Option ActivityMap) (now : Int)
    (hne : config.columns ≠ [])
    (hnd : (config.columns.map (·.id)).Nodup)
    (hk : (config.cards.map Prod.fst).Nodup)
    (hi : ∀ e ∈ config.cards, (e : String × Card).2.id = e.1)
    (he : ∀ e ∈ config.cards, (e : String × Card).2.windowId ≠ some "")
    (hw : (config.cards.filterMap (fun e => e.2.windowId)).Nodup) :
    ((deriveBoard server config selfPaneId activityMap now).map
        (fun col => col.cards.length)).sum =
      (walkedWindows server selfPaneId).length +
        config.cards.countP (fun e =>
          match e.2.windowId with
          | none => true
          | some w =>
            !((walkedWindows server selfPaneId).map (fun sw => sw.2.id)).contains w) := by
  rw [deriveBoard_eq_filtered server config selfPaneId activityMap now hne]
  rw [List.map_map]
  have hsum : ((config.columns.map (·.id)).map
      (fun i => ((produceBoardCards server config selfPaneId activityMap now).filter
        (fun bc => destColId config bc = some i)).length)).sum =
      (produceBoardCards server config selfPaneId activityMap now).length := by
    apply sum_filter_lengths _ (destColId config) _ hnd
    intro a _
    obtain ⟨d, hd, hdm⟩ := destColId_total config a hne
    exact ⟨d, hd, (contains_iff_mem _ _).mp hdm⟩
  rw [List.map_map] at hsum
  have hfun : (config.columns.map
      ((fun col : BoardColumn => col.cards.length) ∘ fun col =>
        ({ id := col.id, title := col.title,
           cards := ((produceBoardCards server config selfPaneId activityMap now).filter
             (fun bc => destColId config bc = some col.id)).reverse } : BoardColumn))) =
      config.columns.map
        ((fun i => ((produceBoardCards server config selfPaneId activityMap now).filter
          (fun bc => destColId config bc = some i)).length) ∘ fun x => x.id) := by
    apply map_congr_mem
    intro col _
    simp [Function.comp, List.length_reverse]
  rw [hfun, hsum]
  exact produceBoardCards_length server config selfPaneId activityMap now hk hi he hw

/-! ## Per-card reconciliation lemmas -/
theorem reconcileCard_no_window (wn : List (String × String)) (now : Int)
    (c : Card) (h : c.windowId = none) : reconcileCard wn now c = (c, false) := by
  simp [reconcileCard, h]

theorem reconcileCard_empty_window (wn : List (String × String)) (now : Int)
    (c : Card) (h : c.windowId = some "") : reconcileCard wn now c = (c, false) := by
  simp [reconcileCard, h]

theorem reconcileCard_dead_open (wn : List (String × String)) (now : Int)
    (c : Card) (w : String) (h : c.windowId = some w) (hw : w ≠ "")
    (hl : mapLookup wn w = none) (hc : truthyTime c.closedAt = false) :
    reconcileCard wn now c = ({ c with closedAt := some now }, true) := by
  simp [reconcileCard, h, hw, hl, hc]

theorem reconcileCard_dead_closed (wn : List (String × String)) (now : Int)
    (c : Card) (w : String) (h : c.windowId = some w) (hw : w ≠ "")
    (hl : mapLookup wn w = none) (hc : truthyTime c.closedAt = true) :
    reconcileCard wn now c = (c, false) := by
  simp [reconcileCard, h, hw, hl, hc]

theorem reconcileCard_live_clear_rename (wn : List (String × String)) (now : Int)
    (c : Card) (w nm : String) (h : c.windowId = some w) (hw : w ≠ "")
    (hl : mapLookup wn w = some nm) (hc : truthyTime c.closedAt = true)
    (hn : (strStartsWith c.name "@" && nm ≠ "") = true) :
    reconcileCard wn now c = ({ c with closedAt := none, name := nm }, true) := by
  have hs : strStartsWith c.name "@" = true := by
    cases hx : strStartsWith c.name "@"
    · rw [hx] at hn
      simp at hn
    · rfl
  have hnm : nm ≠ "" := by
    intro hx
    subst hx
    simp at hn
  simp [reconcileCard, h, hw, hl, hc, hs, hnm]

theorem reconcileCard_live_clear (wn : List (String × String)) (now : Int)
    (c : Card) (w nm : String) (h : c.windowId = some w) (hw : w ≠ "")
    (hl : mapLookup wn w = some nm) (hc : truthyTime c.closedAt = true)
    (hn : (strStartsWith c.name "@" && nm ≠ "") = false) :
    reconcileCard wn now c = ({ c with closedAt := none }, true) := by
  cases hs : strStartsWith c.name "@" with
  | false => simp [reconcileCard, h, hw, hl, hc, hs]
  | true =>
    have hnm : nm = "" := by
      by_contra hx
      rw [hs] at hn
      simp [hx] at hn
    subst hnm
    simp [reconcileCard, h, hw, hl, hc, hs]

theorem reconcileCard_live_rename (wn : List (String × String)) (now : Int)
    (c : Card) (w nm : String) (h : c.windowId = some w) (hw : w ≠ "")
    (hl : mapLookup wn w = some nm) (hc : truthyTime c.closedAt = false)
    (hn : (strStartsWith c.name "@" && nm ≠ "") = true) :
    reconcileCard wn now c = ({ c with name := nm }, true) := by
  have hs : strStartsWith c.name "@" = true := by
    cases hx : strStartsWith c.name "@"
    · rw [hx] at hn
      simp at hn
    · rfl
  have hnm : nm ≠ "" := by
    intro hx
    subst hx
    simp at hn
  simp [reconcileCard, h, hw, hl, hc, hs, hnm]

theorem reconcileCard_live_noop (wn : List (String × String)) (now : Int)
    (c : Card) (w nm : String) (h : c.windowId = some w) (hw : w ≠ "")
    (hl : mapLookup wn w = some nm) (hc : truthyTime c.closedAt = false)
    (hn : (strStartsWith c.name "@" && nm ≠ "") = false) :
    reconcileCard wn now c = (c, false) := by
  cases hs : strStartsWith c.name "@" with
  | false => simp [reconcileCard, h, hw, hl, hc, hs]
  | true =>
    have hnm : nm = "" := by
      by_contra hx
      rw [hs] at hn
      simp [hx] at hn
    subst hnm
    simp [reconcileCard, h, hw, hl, hc, hs]

theorem reconcileCard_fst_of_flag_false (wn : List (String × String)) (now : Int)
    (c : Card) (h : (reconcileCard wn now c).2 = false) :
    (reconcileCard wn now c).1 = c := by
  cases hwid : c.windowId with
  | none => rw [reconcileCard_no_window wn now c hwid]
  | some w =>
    by_cases hw : w = ""
    · subst hw
      rw [reconcileCard_empty_window wn now c hwid]
    · cases hl : mapLookup wn w with
      | none =>
        cases hc : truthyTime c.closedAt with
        | true => rw [reconcileCard_dead_closed wn now c w hwid hw hl hc]
        | false =>
          rw [reconcileCard_dead_open wn now c w hwid hw hl hc] at h
          simp at h
      | some nm =>
        cases hc : truthyTime c.closedAt with
        | true =>
          cases hn : (strStartsWith c.name "@" && nm ≠ "") with
          | true =>
            rw [reconcileCard_live_clear_rename wn now c w nm hwid hw hl hc hn] at h
            simp at h
          | false =>
            rw [reconcileCard_live_clear wn now c w nm hwid hw hl hc hn] at h
            simp at h
        | false =>
          cases hn : (strStartsWith c.name "@" && nm ≠ "") with
          | true =>
            rw [reconcileCard_live_rename wn now c w nm hwid hw hl hc hn] at h
            simp at h
          | false => rw [reconcileCard_live_noop wn now c w nm hwid hw hl hc hn]

theorem reconcileCard_fixpoint (wn : List (String × String)) (now now' : Int)
    (c : Card) (hnz : now ≠ 0) :
    (reconcileCard wn now' ((reconcileCard wn now c).1)).1 =
      (reconcileCard wn now c).1 := by
  cases hwid : c.windowId with
  | none =>
    rw [reconcileCard_no_window wn now c hwid]
    rw [reconcileCard_no_window wn now' c hwid]
  | some w =>
    by_cases hw : w = ""
    · subst hw
      rw [reconcileCard_empty_window wn now c hwid]
      rw [reconcileCard_empty_window wn now' c hwid]
    · cases hl : mapLookup wn w with
      | none =>
        cases hc : truthyTime c.closedAt with
        | true =>
          rw [reconcileCard_dead_closed wn now c w hwid hw hl hc]
          rw [reconcileCard_dead_closed wn now' c w hwid hw hl hc]
        | false =>
          rw [reconcileCard_dead_open wn now c w hwid hw hl hc]
          have hwid' : ({ c with closedAt := some now } : Card).windowId = some w := hwid
          have hc' : truthyTime ({ c with closedAt := some now } : Card).closedAt = true := by
            simp [truthyTime, hnz]
          rw [reconcileCard_dead_closed wn now' _ w hwid' hw hl hc']
      | some nm =>
        cases hc : truthyTime c.closedAt with
        | true =>
          cases hn : (strStartsWith c.name "@" && nm ≠ "") with
          | true =>
            rw [reconcileCard_live_clear_rename wn now c w nm hwid hw hl hc hn]
            have hwid' : ({ c with closedAt := none, name := nm } : Card).windowId = some w := hwid
            have hc' : truthyTime ({ c with closedAt := none, name := nm } : Card).closedAt = false := by
              simp [truthyTime]
            cases hn' : (strStartsWith ({ c with closedAt := none, name := nm } : Card).name "@" && nm ≠ "") with
            | true =>
              rw [reconcileCard_live_rename wn now' _ w nm hwid' hw hl hc' hn']
            | false =>
              rw [reconcileCard_live_noop wn now' _ w nm hwid' hw hl hc' hn']
          | false =>
            rw [reconcileCard_live_clear wn now c w nm hwid hw hl hc hn]
            have hwid' : ({ c with closedAt := none } : Card).windowId = some w := hwid
            have hc' : truthyTime ({ c with closedAt := none } : Card).closedAt = false := by
              simp [truthyTime]
            have hn₂ : (strStartsWith ({ c with closedAt := none } : Card).name "@" && nm ≠ "") = false := hn
            rw [reconcileCard_live_noop wn now' _ w nm hwid' hw hl hc' hn₂]
        | false =>
          cases hn : (strStartsWith c.name "@" && nm ≠ "") with
          | true =>
            rw [reconcileCard_live_rename wn now c w nm hwid hw hl hc hn]
            have hwid' : ({ c with name := nm } : Card).windowId = some w := hwid
            have hc' : truthyTime ({ c with name := nm } : Card).closedAt = false := hc
            cases hn' : (strStartsWith ({ c with name := nm } : Card).name "@" && nm ≠ "") with
            | true =>
              rw [reconcileCard_live_rename wn now' _ w nm hwid' hw hl hc' hn']
            | false =>
              rw [reconcileCard_live_noop wn now' _ w nm hwid' hw hl hc' hn']
          | false =>
            rw [reconcileCard_live_noop wn now c w nm hwid hw hl hc hn]
            rw [reconcileCard_live_noop wn now' c w nm hwid hw hl hc hn]

theorem any_congr_mem {α : Type} (l : List α) (p q : α → Bool)
    (h : ∀ a ∈ l, p a = q a) : l.any p = l.any q := by
  induction l with
  | nil => rfl
  | cons a rest ih =>
    simp only [List.any_cons]
    rw [h a (List.mem_cons_self a rest),
      ih (fun x hx => h x (List.mem_cons_of_mem a hx))]

theorem reconcileCard_flag_indep (wn : List (String × String)) (now now' : Int)
    (c : Card) : (reconcileCard wn now c).2 = (reconcileCard wn now' c).2 := by
  cases hwid : c.windowId with
  | none =>
    rw [reconcileCard_no_window wn now c hwid, reconcileCard_no_window wn now' c hwid]
  | some w =>
    by_cases hw : w = ""
    · subst hw
      rw [reconcileCard_empty_window wn now c hwid,
        reconcileCard_empty_window wn now' c hwid]
    · cases hl : mapLookup wn w with
      | none =>
        cases hc : truthyTime c.closedAt with
        | true =>
          rw [reconcileCard_dead_closed wn now c w hwid hw hl hc,
            reconcileCard_dead_closed wn now' c w hwid hw hl hc]
        | false =>
          rw [reconcileCard_dead_open wn now c w hwid hw hl hc,
            reconcileCard_dead_open wn now' c w hwid hw hl hc]
      | some nm =>
        cases hc : truthyTime c.closedAt with
        | true =>
          cases hn : (strStartsWith c.name "@" && nm ≠ "") with
          | true =>
            rw [reconcileCard_live_clear_rename wn now c w nm hwid hw hl hc hn,
              reconcileCard_live_clear_rename wn now' c w nm hwid hw hl hc hn]
          | false =>
            rw [reconcileCard_live_clear wn now c w nm hwid hw hl hc hn,
              reconcileCard_live_clear wn now' c w nm hwid hw hl hc hn]
        | false =>
          cases hn : (strStartsWith c.name "@" && nm ≠ "") with
          | true =>
            rw [reconcileCard_live_rename wn now c w nm hwid hw hl hc hn,
              reconcileCard_live_rename wn now' c w nm hwid hw hl hc hn]
          | false =>
            rw [reconcileCard_live_noop wn now c w nm hwid hw hl hc hn,
              reconcileCard_live_noop wn now' c w nm hwid hw hl hc hn]

/-- `reconcileConfig` rewritten as a guarded pointwise map over the card
entries. -/
theorem reconcileConfig_cards_map (config : BoardConfig) (server : TmuxServer)
    (now : Int) :
    reconcileConfig config server now =
      if reconcileChanged config server now then
        { config with cards := reconciledCards config server now }
      else config := by
  have h1 : ((config.cards.map
      (fun e => (e.1, reconcileCard (windowNamesOf server) now e.2))).any
        (fun e => e.2.2)) =
      config.cards.any (fun e => (reconcileCard (windowNamesOf server) now e.2).2) := by
    induction config.cards with
    | nil => rfl
    | cons a rest ih => simp [List.any_cons, ih]
  simp only [reconcileConfig, reconcileChanged, reconciledCards, List.map_map]
  rw [h1]
  rfl

theorem reconcileConfig_lookup (config : BoardConfig) (server : TmuxServer)
    (now : Int) (hk : (config.cards.map Prod.fst).Nodup)
    (e : String × Card) (he : e ∈ config.cards) :
    mapLookup (reconcileConfig config server now).cards e.1 =
      some ((reconcileCard (windowNamesOf server) now e.2).1) := by
  rw [reconcileConfig_cards_map]
  by_cases hch : reconcileChanged config server now = true
  · rw [if_pos hch]
    exact mapLookup_map_entries config.cards
      (fun e => (reconcileCard (windowNamesOf server) now e.2).1) e.1 e.2 hk he
  · rw [if_neg hch]
    have hflag : (reconcileCard (windowNamesOf server) now e.2).2 = false := by
      cases hf : (reconcileCard (windowNamesOf server) now e.2).2 with
      | false => rfl
      | true =>
        exfalso
        apply hch
        simp only [reconcileChanged]
        rw [List.any_eq_true]
        exact ⟨e, he, hf⟩
    rw [reconcileCard_fst_of_flag_false _ _ _ hflag]
    exact mapLookup_of_mem_nodup config.cards e.1 e.2 hk he

theorem reconcileChanged_now_indep (config : BoardConfig) (server : TmuxServer)
    (now now' : Int) :
    reconcileChanged config server now = reconcileChanged config server now' := by
  simp only [reconcileChanged]
  exact any_congr_mem _ _ _
    (fun e _ => reconcileCard_flag_indep (windowNamesOf server) now now' e.2)

theorem reconcileConfig_idempotent_aux (config : BoardConfig)
    (server : TmuxServer) (now now' : Int) (hnz : now ≠ 0) :
    reconcileConfig (reconcileConfig config server now) server now' =
      reconcileConfig config server now := by
  rw [reconcileConfig_cards_map config server now]
  by_cases hch : reconcileChanged config server now = true
  · rw [if_pos hch]
    rw [reconcileConfig_cards_map _ server now']
    by_cases hch₂ : reconcileChanged
        { config with cards := reconciledCards config server now } server now' = true
    · rw [if_pos hch₂]
      have hre : reconciledCards
          { config with cards := reconciledCards config server now } server now' =
          reconciledCards config server now := by
        simp only [reconciledCards, List.map_map]
        apply map_congr_mem
        intro e0 _
        simp only [Function.comp]
        rw [reconcileCard_fixpoint (windowNamesOf server) now now' e0.2 hnz]
      rw [hre]
    · rw [if_neg hch₂]
  · rw [if_neg hch]
    rw [reconcileConfig_cards_map config server now']
    have hch' : reconcileChanged config server now' ≠ true := by
      rw [← reconcileChanged_now_indep config server now now']
      exact hch
    rw [if_neg hch']

theorem reconcileConfig_of_no_flags (config : BoardConfig) (server : TmuxServer)
    (now : Int)
    (h : ∀ e ∈ config.cards,
      (reconcileCard (windowNamesOf server) now (e : String × Card).2).2 = false) :
    reconcileChanged config server now = false ∧
      reconcileConfig config server now = config := by
  have hch : reconcileChanged config server now = false := by
    simp only [reconcileChanged]
    rw [List.any_eq_false]
    intro e he
    rw [h e he]
    simp
  refine ⟨hch, ?_⟩
  rw [reconcileConfig_cards_map, hch]
  simp

/-! ## C6 — markCardStarted -/
/-- C6: for a present card id, `markCardStarted` yields a store whose card has
the given windowId, startedAt = now, column In Progress and no closedAt,
regardless of prior state; for an absent id it returns the input store
unchanged. -/
theorem c6_markStarted_spec (config : BoardConfig) (cardId windowId : String)
    (now : Int) :
    (mapLookup config.cards cardId = none →
      markCardStarted config cardId windowId now = config) ∧
    (∀ c, mapLookup config.cards cardId = some c →
      mapLookup (markCardStarted config cardId windowId now).cards cardId =
        some { c with windowId := some windowId, startedAt := some now,
                      columnId := COL_IN_PROGRESS, closedAt := none }) := by
  constructor
  · intro h
    unfold markCardStarted
    rw [h]
  · intro c h
    unfold markCardStarted
    rw [h]
    simp only []
    rw [mapLookup_mapSet]
    simp

theorem c6_markStarted_witness :
    (markCardStarted sampleC6Config "zz" "@5" 100 = sampleC6Config) ∧
    (mapLookup (markCardStarted sampleC6Config "c1" "@5" 100).cards "c1" =
      some { (sampleCard "c1") with columnId := COL_IN_PROGRESS, windowId := some "@5", startedAt := some 100, closedAt := none }) := by
  constructor
  · exact (c6_markStarted_spec sampleC6Config "zz" "@5" 100).1 (by decide)
  · exact (c6_markStarted_spec sampleC6Config "c1" "@5" 100).2
      ({ (sampleCard "c1") with columnId := COL_DONE, startedAt := some 5, closedAt := some 7 }) (by decide)

theorem getIdlePromotions_mem_iff (cards : List (String × Card))
    (lastChangeTimes : List (String × Int)) (now thresholdMs : Int)
    (cid : String) :
    cid ∈ getIdlePromotions cards lastChangeTimes now thresholdMs ↔
      ∃ c w t, (cid, c) ∈ cards ∧ c.columnId = COL_IN_PROGRESS ∧
        c.windowId = some w ∧ w ≠ "" ∧ mapLookup lastChangeTimes w = some t ∧
        now - t ≥ thresholdMs := by
  unfold getIdlePromotions
  rw [List.mem_filterMap]
  constructor
  · rintro ⟨e, he, heq⟩
    by_cases hcol : e.2.columnId = COL_IN_PROGRESS
    · have hcol' : ¬(e.2.columnId ≠ COL_IN_PROGRESS) := not_not_intro hcol
      rcases hwid : e.2.windowId with _ | w
      · simp only [if_neg hcol', hwid] at heq
        exact Option.noConfusion heq
      · by_cases hw : w = ""
        · simp only [if_neg hcol', hwid, if_pos hw] at heq
          exact Option.noConfusion heq
        · rcases hlk : mapLookup lastChangeTimes w with _ | t
          · simp only [if_neg hcol', hwid, if_neg hw, hlk] at heq
            exact Option.noConfusion heq
          · simp only [if_neg hcol', hwid, if_neg hw, hlk] at heq
            by_cases hthr : now - t ≥ thresholdMs
            · rw [if_pos hthr] at heq
              have : e.1 = cid := Option.some.inj heq
              exact ⟨e.2, w, t, by rw [← this]; exact he, hcol, hwid, hw, hlk, hthr⟩
            · rw [if_neg hthr] at heq
              exact Option.noConfusion heq
    · rw [if_pos (by simpa using hcol)] at heq
      exact Option.noConfusion heq
  · rintro ⟨c, w, t, hmem, hcol, hwid, hw, hlk, hthr⟩
    refine ⟨(cid, c), hmem, ?_⟩
    have hcol' : ¬((cid, c).2.columnId ≠ COL_IN_PROGRESS) := not_not_intro hcol
    simp only [if_neg hcol', hwid, if_neg hw, hlk, if_pos hthr]

/-- C7: `getIdlePromotions` returns exactly the ids of In Progress cards with
a (nonempty) windowId whose recorded lastChangeTime satisfies
`now - lastChangeTime ≥ threshold`; and at threshold 120000 the boundary
window at `now - 120000` is included while `now - 119999` is excluded. -/
theorem c7_idle_promotion_spec (cards : List (String × Card))
    (lastChangeTimes : List (String × Int)) (now thresholdMs : Int)
    (cid : String) :
    (cid ∈ getIdlePromotions cards lastChangeTimes now thresholdMs ↔
      ∃ c w t, (cid, c) ∈ cards ∧ c.columnId = COL_IN_PROGRESS ∧
        c.windowId = some w ∧ w ≠ "" ∧ mapLookup lastChangeTimes w = some t ∧
        now - t ≥ thresholdMs) ∧
    getIdlePromotions [("b1", inProgressCard "b1" "@1")]
      [("@1", (200000 : Int) - 120000)] 200000 120000 = ["b1"] ∧
    getIdlePromotions [("b1", inProgressCard "b1" "@1")]
      [("@1", (200000 : Int) - 119999)] 200000 120000 = [] :=
  ⟨getIdlePromotions_mem_iff cards lastChangeTimes now thresholdMs cid,
   by decide, by decide⟩

/-! ## C10 — missing lastChangeTime entry -/
/-- C10: a card whose windowId has no recorded lastChangeTime is never an
idle-promotion candidate, whatever its column or the threshold. -/
theorem c10_no_entry_never_promoted (cards : List (String × Card))
    (lastChangeTimes : List (String × Int)) (now thresholdMs : Int)
    (cid : String) (c : Card) (w : String)
    (hk : (cards.map Prod.fst).Nodup)
    (hmem : (cid, c) ∈ cards) (hwid : c.windowId = some w)
    (hlk : mapLookup lastChangeTimes w = none) :
    cid ∉ getIdlePromotions cards lastChangeTimes now thresholdMs := by
  intro hin
  rcases ((getIdlePromotions_mem_iff cards lastChangeTimes now thresholdMs
    cid).mp hin) with ⟨c', w', t, hmem', hcol', hwid', hw', hlk', hthr'⟩
  have hceq : (cid, c) = (cid, c') := nodup_keys_entry_eq cards hk _ _ hmem hmem' rfl
  have hcc : c = c' := congrArg Prod.snd hceq
  subst hcc
  rw [hwid] at hwid'
  have hww : w = w' := Option.some.inj hwid'
  subst hww
  rw [hlk] at hlk'
  exact Option.noConfusion hlk'

theorem c10_no_entry_witness :
    "c1" ∉ getIdlePromotions [("c1", inProgressCard "c1" "@7")] [] 200000 120000 :=
  c10_no_entry_never_promoted [("c1", inProgressCard "c1" "@7")] [] 200000 120000
    "c1" (inProgressCard "c1" "@7") "@7" (by decide) (by decide) rfl rfl

/-- C8 counterexample: editing a card whose command is already the "custom"
variant, passing `command = "custom"` again and no custom-command text, clears
the stored custom command even though the command was not changed away from
"custom" — refuting "updates exactly the fields present in the input … except
when the command field is changed away from the custom variant". -/
theorem c8_custom_clobber_counterexample :
    sampleCustomCard.command = "custom" ∧
    sampleCustomCard.customCommand = some "x" ∧
    (mapLookup (editCardInConfig sampleC8Config "c1"
      { command := some "custom" }).cards "c1").map (·.customCommand) =
      some none := by
  refine ⟨rfl, rfl, ?_⟩
  decide

/-- C8 (amended): `editCardInConfig` applies the present fields, except that
customCommand is rewritten (to the input's value, cleared when absent)
whenever the command field is present — regardless of variant — and is left
alone otherwise, and worktreePath is rewritten only together with the
worktree flag (cleared when worktree is false); an absent card id returns the
input store unchanged. -/
theorem c8_edit_fields (config : BoardConfig) (cardId : String)
    (fields : EditCardFields) :
    (mapLookup config.cards cardId = none →
      editCardInConfig config cardId fields = config) ∧
    (∀ c, mapLookup config.cards cardId = some c →
      mapLookup (editCardInConfig config cardId fields).cards cardId = some
        { c with
          name := fields.name.getD c.name,
          description := fields.description.getD c.description,
          acceptanceCriteria := fields.acceptanceCriteria.getD c.acceptanceCriteria,
          dir := fields.dir.getD c.dir,
          command := fields.command.getD c.command,
          customCommand := if fields.command.isSome then fields.customCommand
            else c.customCommand,
          worktree := fields.worktree.getD c.worktree,
          worktreePath := match fields.worktree with
            | some b => if b then fields.worktreePath else none
            | none => c.worktreePath }) := by
  constructor
  · intro h
    unfold editCardInConfig
    rw [h]
  · intro c h
    unfold editCardInConfig
    rw [h]
    simp only []
    rw [mapLookup_mapSet, if_pos rfl]
    congr 1
    rcases fields with ⟨fn, fd, fa, fdir, fc, fcc, fw, fwp⟩
    cases fn <;> cases fd <;> cases fa <;> cases fdir <;> cases fc <;> cases fw <;> simp

theorem c8_edit_witness :
    editCardInConfig sampleC8Config "zz" {} = sampleC8Config ∧
    mapLookup (editCardInConfig sampleC8Config "c1"
        { name := some "renamed" }).cards "c1" =
      some { sampleCustomCard with name := "renamed" } := by
  constructor
  · exact (c8_edit_fields sampleC8Config "zz" {}).1 (by decide)
  · have h := (c8_edit_fields sampleC8Config "c1" { name := some "renamed" }).2
      sampleCustomCard (by decide)
    simpa using h

/-! ## C2 — reconcile closedAt bookkeeping -/
/-- C2: for a store with distinct record keys, reconciliation stamps
`closedAt = now` on every open card whose window is gone and clears `closedAt`
on every closed card whose window is live (nonzero timestamps assumed, as the
code tests truthiness). -/
theorem c2_reconcile_closedAt (config : BoardConfig) (server : TmuxServer)
    (now : Int) (hk : (config.cards.map Prod.fst).Nodup)
    (e : String × Card) (he : e ∈ config.cards) (w : String)
    (hwid : (e : String × Card).2.windowId = some w) (hwne : w ≠ "")
    (h0 : e.2.closedAt ≠ some 0) :
    (w ∉ (sessionWindows server.sessions).map (fun sw => sw.2.id) →
      e.2.closedAt = none →
      ∃ c', mapLookup (reconcileConfig config server now).cards e.1 = some c' ∧
        c'.closedAt = some now) ∧
    (w ∈ (sessionWindows server.sessions).map (fun sw => sw.2.id) →
      e.2.closedAt ≠ none →
      ∃ c', mapLookup (reconcileConfig config server now).cards e.1 = some c' ∧
        c'.closedAt = none) := by
  have hlk := reconcileConfig_lookup config server now hk e he
  constructor
  · intro hdead hcl
    have hl : mapLookup (windowNamesOf server) w = none :=
      (mapLookup_windowNamesOf_none server w).mpr hdead
    have hc : truthyTime e.2.closedAt = false := by
      rw [hcl]
      rfl
    rw [reconcileCard_dead_open (windowNamesOf server) now e.2 w hwid hwne hl hc]
      at hlk
    exact ⟨_, hlk, rfl⟩
  · intro hlive hcl
    have hl : mapLookup (windowNamesOf server) w ≠ none := by
      intro hnone
      exact ((mapLookup_windowNamesOf_none server w).mp hnone) hlive
    rcases hnm : mapLookup (windowNamesOf server) w with _ | nm
    · exact absurd hnm hl
    · have hc : truthyTime e.2.closedAt = true := by
        rcases hct : e.2.closedAt with _ | t
        · exact absurd hct hcl
        · have ht : t ≠ 0 := fun hz => h0 (by rw [hct, hz])
          simp [truthyTime, hct, ht]
      cases hn : (strStartsWith e.2.name "@" && nm ≠ "") with
      | true =>
        rw [reconcileCard_live_clear_rename (windowNamesOf server) now e.2 w nm
          hwid hwne hnm hc hn] at hlk
        exact ⟨_, hlk, rfl⟩
      | false =>
        rw [reconcileCard_live_clear (windowNamesOf server) now e.2 w nm
          hwid hwne hnm hc hn] at hlk
        exact ⟨_, hlk, rfl⟩

theorem c2_reconcile_witness :
    (∃ c', mapLookup (reconcileConfig sampleC2Config sampleSrvEmpty 100).cards
      "c1" = some c' ∧ c'.closedAt = some 100) ∧
    (∃ c', mapLookup (reconcileConfig sampleC2ClosedConfig sampleSrv9 200).cards
      "c1" = some c' ∧ c'.closedAt = none) :=
  ⟨(c2_reconcile_closedAt sampleC2Config sampleSrvEmpty 100 (by decide)
      ("c1", sampleC2Card) (by decide) "@9" rfl (by decide) (by decide)).1
      (by decide) rfl,
   (c2_reconcile_closedAt sampleC2ClosedConfig sampleSrv9 200 (by decide)
      ("c1", sampleC2ClosedCard) (by decide) "@9" rfl (by decide) (by decide)).2
      (by decide) (by decide)⟩

/-! ## C3 — idempotence and reference identity -/
/-- C3 (amended): reconciling twice with the same live-window set gives the
same value as reconciling once (for a nonzero clock); and the identical input
reference comes back whenever no card's liveness changed *and* no live card
needed the placeholder-name rewrite (name starting with "@" with a nonempty
live window name), timestamps being nonzero. -/
theorem c3_reconcile_idempotent_identity (config : BoardConfig)
    (server : TmuxServer) :
    (∀ now now', now ≠ 0 →
      reconcileConfig (reconcileConfig config server now) server now' =
        reconcileConfig config server now) ∧
    (∀ now,
      (∀ e ∈ config.cards, (e : String × Card).2.closedAt ≠ some 0) →
      (∀ e ∈ config.cards,
        match (e : String × Card).2.windowId with
        | none => True
        | some w =>
          w = "" ∨
          (match mapLookup (windowNamesOf server) w with
           | none => e.2.closedAt ≠ none
           | some nm => e.2.closedAt = none ∧
               ¬(strStartsWith e.2.name "@" = true ∧ nm ≠ ""))) →
      reconcileChanged config server now = false ∧
        reconcileConfig config server now = config) := by
  constructor
  · intro now now' hnz
    exact reconcileConfig_idempotent_aux config server now now' hnz
  · intro now h0 hno
    apply reconcileConfig_of_no_flags
    intro e he
    have hcond := hno e he
    cases hwid : e.2.windowId with
    | none => rw [reconcileCard_no_window _ now e.2 hwid]
    | some w =>
      rw [hwid] at hcond
      simp only at hcond
      rcases hcond with rfl | hcond
      · rw [reconcileCard_empty_window _ now e.2 hwid]
      · by_cases hw : w = ""
        · subst hw
          rw [reconcileCard_empty_window _ now e.2 hwid]
        · rcases hnl : mapLookup (windowNamesOf server) w with _ | nm
          · rw [hnl] at hcond
            simp only at hcond
            have hc : truthyTime e.2.closedAt = true := by
              rcases hcc : e.2.closedAt with _ | t
              · exact absurd hcc hcond
              · have ht : t ≠ 0 := fun hz => (h0 e he) (by rw [hcc, hz])
                simp [truthyTime, hcc, ht]
            rw [reconcileCard_dead_closed _ now e.2 w hwid hw hnl hc]
          · rw [hnl] at hcond
            simp only at hcond
            obtain ⟨hcl, hname⟩ := hcond
            have hc : truthyTime e.2.closedAt = false := by
              rw [hcl]
              rfl
            have hn : (strStartsWith e.2.name "@" && nm ≠ "") = false := by
              cases hs : strStartsWith e.2.name "@" with
              | false => simp [hs]
              | true =>
                have hnm : nm = "" := by
                  by_contra hx
                  exact hname ⟨hs, hx⟩
                subst hnm
                simp
            rw [reconcileCard_live_noop _ now e.2 w nm hwid hw hnl hc hn]

/-- C3 counterexample: the store's only card is live with `closedAt` already
unset — no liveness changed — yet its placeholder name "@9" is rewritten from
tmux, `changed` is set, and `reconcileConfig` returns a fresh (even
value-different) store instead of the identical input reference. -/
theorem c3_identity_counterexample :
    sampleAtCard.windowId = some "@9" ∧
    sampleAtCard.closedAt = none ∧
    "@9" ∈ (sessionWindows sampleSrv9.sessions).map (fun sw => sw.2.id) ∧
    reconcileChanged sampleAtConfig sampleSrv9 100 = true ∧
    reconcileConfig sampleAtConfig sampleSrv9 100 ≠ sampleAtConfig := by
  refine ⟨rfl, rfl, by decide, by decide, by decide⟩

theorem c3_reconcile_witness :
    (reconcileConfig (reconcileConfig sampleC3Config sampleSrv9 100)
        sampleSrv9 200 =
      reconcileConfig sampleC3Config sampleSrv9 100) ∧
    (reconcileChanged sampleC3Config sampleSrv9 100 = false ∧
      reconcileConfig sampleC3Config sampleSrv9 100 = sampleC3Config) :=
  ⟨(c3_reconcile_idempotent_identity sampleC3Config sampleSrv9).1 100 200
      (by decide),
   (c3_reconcile_idempotent_identity sampleC3Config sampleSrv9).2 100
      (by decide)
      (by
        intro e he
        have he' : e = ("c1", sampleC3Card) := List.mem_singleton.mp he
        subst he'
        refine Or.inr ?_
        show sampleC3Card.closedAt = none ∧
          ¬(strStartsWith sampleC3Card.name "@" = true ∧ "work" ≠ "")
        decide)⟩

/-! ## C9 — the placeholder-name rewrite and the reconcile frame -/
theorem reconcileCard_frame (wn : List (String × String)) (now : Int) (c : Card) :
    (reconcileCard wn now c).1.id = c.id ∧
    (reconcileCard wn now c).1.description = c.description ∧
    (reconcileCard wn now c).1.acceptanceCriteria = c.acceptanceCriteria ∧
    (reconcileCard wn now c).1.columnId = c.columnId ∧
    (reconcileCard wn now c).1.sessionName = c.sessionName ∧
    (reconcileCard wn now c).1.dir = c.dir ∧
    (reconcileCard wn now c).1.command = c.command ∧
    (reconcileCard wn now c).1.customCommand = c.customCommand ∧
    (reconcileCard wn now c).1.worktree = c.worktree ∧
    (reconcileCard wn now c).1.worktreePath = c.worktreePath ∧
    (reconcileCard wn now c).1.windowId = c.windowId ∧
    (reconcileCard wn now c).1.createdAt = c.createdAt ∧
    (reconcileCard wn now c).1.startedAt = c.startedAt := by
  cases hwid : c.windowId with
  | none =>
    rw [reconcileCard_no_window wn now c hwid]
    simp [hwid]
  | some w =>
    by_cases hw : w = ""
    · subst hw
      rw [reconcileCard_empty_window wn now c hwid]
      simp [hwid]
    · cases hl : mapLookup wn w with
      | none =>
        cases hc : truthyTime c.closedAt with
        | true =>
          rw [reconcileCard_dead_closed wn now c w hwid hw hl hc]
          simp [hwid]
        | false =>
          rw [reconcileCard_dead_open wn now c w hwid hw hl hc]
          simp [hwid]
      | some nm =>
        cases hc : truthyTime c.closedAt with
        | true =>
          cases hn : (strStartsWith c.name "@" && nm ≠ "") with
          | true =>
            rw [reconcileCard_live_clear_rename wn now c w nm hwid hw hl hc hn]
            simp [hwid]
          | false =>
            rw [reconcileCard_live_clear wn now c w nm hwid hw hl hc hn]
            simp [hwid]
        | false =>
          cases hn : (strStartsWith c.name "@" && nm ≠ "") with
          | true =>
            rw [reconcileCard_live_rename wn now c w nm hwid hw hl hc hn]
            simp [hwid]
          | false =>
            rw [reconcileCard_live_noop wn now c w nm hwid hw hl hc hn]
            simp [hwid]

/-- C9 (amended): when a stored card is live and its name starts with "@",
reconciliation overwrites the name with the live window's name provided that
name is nonempty, and flags the store as changed (so no identical reference
comes back); every other card field, and the store's columns, commands and
idle timeout, are left unchanged. -/
theorem c9_reconcile_name_frame (config : BoardConfig) (server : TmuxServer)
    (now : Int) (hk : (config.cards.map Prod.fst).Nodup) :
    (∀ e ∈ config.cards, ∀ w nm,
      (e : String × Card).2.windowId = some w → w ≠ "" →
      mapLookup (windowNamesOf server) w = some nm → nm ≠ "" →
      strStartsWith e.2.name "@" = true →
      reconcileChanged config server now = true ∧
      ∃ c', mapLookup (reconcileConfig config server now).cards e.1 = some c' ∧
        c'.name = nm) ∧
    (∀ e ∈ config.cards,
      ∃ c', mapLookup (reconcileConfig config server now).cards e.1 = some c' ∧
        c'.id = e.2.id ∧ c'.description = e.2.description ∧
        c'.acceptanceCriteria = e.2.acceptanceCriteria ∧
        c'.columnId = e.2.columnId ∧ c'.sessionName = e.2.sessionName ∧
        c'.dir = e.2.dir ∧ c'.command = e.2.command ∧
        c'.customCommand = e.2.customCommand ∧ c'.worktree = e.2.worktree ∧
        c'.worktreePath = e.2.worktreePath ∧ c'.windowId = e.2.windowId ∧
        c'.createdAt = e.2.createdAt ∧ c'.startedAt = e.2.startedAt) ∧
    (reconcileConfig config server now).columns = config.columns ∧
    (reconcileConfig config server now).commands = config.commands ∧
    (reconcileConfig config server now).idleTimeoutMs = config.idleTimeoutMs := by
  refine ⟨?_, ?_, ?_, ?_, ?_⟩
  · intro e he w nm hwid hw hnm hnmne hs
    have hlk := reconcileConfig_lookup config server now hk e he
    have hn : (strStartsWith e.2.name "@" && nm ≠ "") = true := by
      simp [hs, hnmne]
    cases hc : truthyTime e.2.closedAt with
    | true =>
      rw [reconcileCard_live_clear_rename (windowNamesOf server) now e.2 w nm
        hwid hw hnm hc hn] at hlk
      refine ⟨?_, _, hlk, rfl⟩
      simp only [reconcileChanged]
      rw [List.any_eq_true]
      refine ⟨e, he, ?_⟩
      rw [reconcileCard_live_clear_rename (windowNamesOf server) now e.2 w nm
        hwid hw hnm hc hn]
    | false =>
      rw [reconcileCard_live_rename (windowNamesOf server) now e.2 w nm
        hwid hw hnm hc hn] at hlk
      refine ⟨?_, _, hlk, rfl⟩
      simp only [reconcileChanged]
      rw [List.any_eq_true]
      refine ⟨e, he, ?_⟩
      rw [reconcileCard_live_rename (windowNamesOf server) now e.2 w nm
        hwid hw hnm hc hn]
  · intro e he
    have hlk := reconcileConfig_lookup config server now hk e he
    exact ⟨_, hlk, reconcileCard_frame (windowNamesOf server) now e.2⟩
  · rw [reconcileConfig_cards_map]
    by_cases hch : reconcileChanged config server now = true
    · rw [if_pos hch]
    · rw [if_neg hch]
  · rw [reconcileConfig_cards_map]
    by_cases hch : reconcileChanged config server now = true
    · rw [if_pos hch]
    · rw [if_neg hch]
  · rw [reconcileConfig_cards_map]
    by_cases hch : reconcileChanged config server now = true
    · rw [if_pos hch]
    · rw [if_neg hch]

/-- C9 counterexample: a live "@"-named card whose tmux window has an *empty*
name is not renamed, no change is counted, and the identical store comes back
— refuting the unconditional overwrite (and the "never identical reference")
in the claim. -/
theorem c9_empty_name_counterexample :
    sampleAtCard.name = "@9" ∧
    sampleAtCard.windowId = some "@9" ∧
    mapLookup (windowNamesOf sampleSrvEmptyName) "@9" = some "" ∧
    reconcileChanged sampleAtConfig sampleSrvEmptyName 100 = false ∧
    reconcileConfig sampleAtConfig sampleSrvEmptyName 100 = sampleAtConfig := by
  refine ⟨rfl, rfl, by decide, by decide, by decide⟩

theorem c9_reconcile_witness :
    (reconcileChanged sampleAtConfig sampleSrv9 100 = true ∧
      ∃ c', mapLookup (reconcileConfig sampleAtConfig sampleSrv9 100).cards
        "c1" = some c' ∧ c'.name = "work") ∧
    (reconcileConfig sampleAtConfig sampleSrv9 100).columns =
      sampleAtConfig.columns :=
  ⟨(c9_reconcile_name_frame sampleAtConfig sampleSrv9 100 (by decide)).1
      ("c1", sampleAtCard) (by decide) "@9" "work" rfl (by decide) (by decide)
      (by decide) (by decide),
   (c9_reconcile_name_frame sampleAtConfig sampleSrv9 100 (by decide)).2.2.1⟩

/-! ## C5 — card identity resolution -/
theorem filterMap_const_none {α β : Type} (l : List α) :
    l.filterMap (fun _ => (none : Option β)) = [] := by
  induction l with
  | nil => rfl
  | cons a rest ih => simp [List.filterMap_cons, ih]

theorem filterMap_guard_nil {α β : Type} (l : List α) (p : α → Prop)
    [DecidablePred p] (f : α → β)
    (h : l.filterMap (fun a => if p a then some (f a) else none) = []) :
    ∀ a ∈ l, ¬p a := by
  induction l with
  | nil => intro a ha; simp at ha
  | cons a rest ih =>
    rw [List.filterMap_cons] at h
    by_cases hp : p a
    · rw [if_pos hp] at h
      exact absurd h (by simp)
    · rw [if_neg hp] at h
      intro x hx
      rcases List.mem_cons.mp hx with rfl | hx'
      · exact hp
      · exact ih h x hx'

theorem tier1_of_lookup_none (cards : List (String × Card)) (q : String)
    (h : mapLookup cards q = none) :
    cards.filterMap (fun e =>
      if e.1 = q then some (⟨e.1, e.2⟩ : CardMatch) else none) = [] := by
  rw [mapLookup_eq_none_iff] at h
  have hpt : ∀ e ∈ cards,
      (if (e : String × Card).1 = q then some (⟨e.1, e.2⟩ : CardMatch) else none) =
        (fun _ => (none : Option CardMatch)) e := by
    intro e he
    rw [if_neg]
    intro hq
    exact h (hq ▸ (List.mem_map).mpr ⟨e, he, rfl⟩)
  rw [filterMap_congr_mem _ _ _ hpt, filterMap_const_none]

theorem tier1_of_lookup_some (cards : List (String × Card)) (q : String)
    (c : Card) (hk : (cards.map Prod.fst).Nodup) (h : mapLookup cards q = some c) :
    cards.filterMap (fun e =>
      if e.1 = q then some (⟨e.1, e.2⟩ : CardMatch) else none) = [⟨q, c⟩] := by
  induction cards with
  | nil => simp [mapLookup] at h
  | cons e rest ih =>
    obtain ⟨k, v⟩ := e
    simp only [List.map_cons, List.nodup_cons] at hk
    rw [List.filterMap_cons]
    by_cases hq : k = q
    · subst hq
      simp only [mapLookup, if_pos rfl] at h
      have hcv : v = c := Option.some.inj h
      subst hcv
      have hrest : mapLookup rest k = none := by
        rw [mapLookup_eq_none_iff]
        exact hk.1
      rw [tier1_of_lookup_none rest k hrest]
      simp
    · simp only [mapLookup, if_neg hq] at h
      have : (if ((k, v) : String × Card).1 = q then
          some (⟨(k, v).1, (k, v).2⟩ : CardMatch) else none) = none := by
        simp [hq]
      rw [this, ih hk.2 h]

theorem findCards_eq_tiers (cards : List (String × Card)) (query : String)
    (hk : (cards.map Prod.fst).Nodup) :
    findCards cards query = findCardsSpecTiers cards query := by
  have hname : (if (cards.filterMap (fun e =>
        if strToLower e.2.name = strToLower query then
          some (⟨e.1, e.2⟩ : CardMatch) else none)) ≠ [] then
        cards.filterMap (fun e =>
          if strToLower e.2.name = strToLower query then
            some (⟨e.1, e.2⟩ : CardMatch) else none)
      else if (cards.filterMap (fun e =>
        if strToLower e.2.name ≠ strToLower query &&
            strIncludes (strToLower e.2.name) (strToLower query) then
          some (⟨e.1, e.2⟩ : CardMatch) else none)) ≠ [] then
        cards.filterMap (fun e =>
          if strToLower e.2.name ≠ strToLower query &&
              strIncludes (strToLower e.2.name) (strToLower query) then
            some (⟨e.1, e.2⟩ : CardMatch) else none)
      else []) =
      (if (cards.filterMap (fun e =>
        if strToLower e.2.name = strToLower query then
          some (⟨e.1, e.2⟩ : CardMatch) else none)) ≠ [] then
        cards.filterMap (fun e =>
          if strToLower e.2.name = strToLower query then
            some (⟨e.1, e.2⟩ : CardMatch) else none)
      else if (cards.filterMap (fun e =>
        if strIncludes (strToLower e.2.name) (strToLower query) then
          some (⟨e.1, e.2⟩ : CardMatch) else none)) ≠ [] then
        cards.filterMap (fun e =>
          if strIncludes (strToLower e.2.name) (strToLower query) then
            some (⟨e.1, e.2⟩ : CardMatch) else none)
      else []) := by
    by_cases h3 : (cards.filterMap (fun e =>
        if strToLower e.2.name = strToLower query then
          some (⟨e.1, e.2⟩ : CardMatch) else none)) = []
    · have hpm : cards.filterMap (fun e =>
          if strToLower e.2.name ≠ strToLower query &&
              strIncludes (strToLower e.2.name) (strToLower query) then
            some (⟨e.1, e.2⟩ : CardMatch) else none) =
          cards.filterMap (fun e =>
            if strIncludes (strToLower e.2.name) (strToLower query) then
              some (⟨e.1, e.2⟩ : CardMatch) else none) := by
        apply filterMap_congr_mem
        intro e he
        have hne : strToLower e.2.name ≠ strToLower query :=
          filterMap_guard_nil cards
            (fun e => strToLower e.2.name = strToLower query) _ h3 e he
        rw [decide_eq_true hne, Bool.true_and]
      rw [hpm, h3]
    · rw [if_pos h3, if_pos h3]
  rcases hq : mapLookup cards query with _ | c
  · have h1 := tier1_of_lookup_none cards query hq
    by_cases hlen : query.length ≥ 4
    · have hpc : cards.filterMap (fun e =>
          if strStartsWith e.1 query && decide (query.length ≥ 4) then
            some (⟨e.1, e.2⟩ : CardMatch) else none) =
          cards.filterMap (fun e =>
            if strStartsWith e.1 query then some (⟨e.1, e.2⟩ : CardMatch)
            else none) := by
        apply filterMap_congr_mem
        intro e _
        rw [decide_eq_true hlen, Bool.and_true]
      simp only [findCards, findCardsSpecTiers, hq, h1, hpc, if_pos hlen]
      simp only [ne_eq, not_true_eq_false, if_false]
      by_cases h2 : (cards.filterMap (fun e =>
          if strStartsWith e.1 query then some (⟨e.1, e.2⟩ : CardMatch)
          else none)) = []
      · simp only [h2]
        simpa using hname
      · simp only [if_pos h2]
    · have hpc : cards.filterMap (fun e =>
          if strStartsWith e.1 query && decide (query.length ≥ 4) then
            some (⟨e.1, e.2⟩ : CardMatch) else none) = [] := by
        have hpt : ∀ e ∈ cards, (if strStartsWith (e : String × Card).1 query &&
            decide (query.length ≥ 4) then some (⟨e.1, e.2⟩ : CardMatch)
            else none) = (fun _ => (none : Option CardMatch)) e := by
          intro e _
          rw [decide_eq_false hlen, Bool.and_false]
          simp
        rw [filterMap_congr_mem _ _ _ hpt, filterMap_const_none]
      simp only [findCards, findCardsSpecTiers, hq, h1, hpc, if_neg hlen]
      simp only [ne_eq, not_true_eq_false, if_false]
      simpa using hname
  · have h1 := tier1_of_lookup_some cards query c hk hq
    simp only [findCards, findCardsSpecTiers, hq, h1]
    simp

/-- C5: `findCards` realizes the spec's four matching tiers applied in order
(exact identifier; identifier prefix only for queries of length ≥ 4, winning
even when ambiguous with no fallthrough; case-insensitive exact name;
case-insensitive substring name), and `resolveCard` returns a success exactly
when the winning tier has a single candidate, the tagged not-found error when
every tier is empty, and the tagged ambiguous error enumerating the
candidates when the winning tier has several; being a total function, it
never throws. -/
theorem c5_resolution_precedence (cards : List (String × Card)) (query : String)
    (hk : (cards.map Prod.fst).Nodup) :
    findCards cards query = findCardsSpecTiers cards query ∧
    ((findCardsSpecTiers cards query = [] ∧
        resolveCard cards query = .error (noCardFoundMsg query)) ∨
      (∃ m, findCardsSpecTiers cards query = [m] ∧
        resolveCard cards query = .ok m.id m.card) ∨
      ((findCardsSpecTiers cards query).length > 1 ∧
        resolveCard cards query =
          .error (ambiguousMsg query (findCardsSpecTiers cards query)))) := by
  have hA := findCards_eq_tiers cards query hk
  refine ⟨hA, ?_⟩
  rcases hT : findCardsSpecTiers cards query with _ | ⟨m, rest⟩
  · left
    refine ⟨rfl, ?_⟩
    simp only [resolveCard, hA, hT]
    rfl
  · cases rest with
    | nil =>
      right
      left
      refine ⟨m, rfl, ?_⟩
      simp only [resolveCard, hA, hT]
      simp
    | cons m2 rest2 =>
      right
      right
      refine ⟨by simp [hT], ?_⟩
      simp only [resolveCard, hA, hT]
      simp

theorem c5_resolution_witness :
    findCards aaaCards "aaaa" = findCardsSpecTiers aaaCards "aaaa" ∧
    ((findCardsSpecTiers aaaCards "aaaa" = [] ∧
        resolveCard aaaCards "aaaa" = .error (noCardFoundMsg "aaaa")) ∨
      (∃ m, findCardsSpecTiers aaaCards "aaaa" = [m] ∧
        resolveCard aaaCards "aaaa" = .ok m.id m.card) ∨
      ((findCardsSpecTiers aaaCards "aaaa").length > 1 ∧
        resolveCard aaaCards "aaaa" =
          .error (ambiguousMsg "aaaa" (findCardsSpecTiers aaaCards "aaaa")))) :=
  c5_resolution_precedence aaaCards "aaaa" (by decide)

/-! ## C4 — column order and within-column order -/
/-- C4 (amended): for a store with at least one configured column and
distinct column ids, `deriveBoard` returns the columns in configured order,
but within each column the BoardCards appear in *reverse* of the order they
were produced (the final `.reverse()`): unmatched cards in reverse
store-iteration order first, then live windows in reverse process-tree
enumeration order. -/
theorem c4_board_order (server : TmuxServer) (config : BoardConfig)
    (selfPaneId : Option String) (activityMap : Option ActivityMap) (now : Int)
    (hne : config.columns ≠ []) (_hnd : (config.columns.map (·.id)).Nodup) :
    deriveBoard server config selfPaneId activityMap now =
      config.columns.map (fun col =>
        { id := col.id, title := col.title,
          cards := ((produceBoardCards server config selfPaneId activityMap
            now).filter
            (fun bc => destColId config bc = some col.id)).reverse }) :=
  deriveBoard_eq_filtered server config selfPaneId activityMap now hne

/-- C4 counterexample: two uncategorized windows are produced in process-tree
enumeration order @0, @1, but the derived Unassigned column lists them as
@1, @0 — not "exactly in the order they were produced". -/
theorem c4_order_counterexample :
    (produceBoardCards sampleServer2 sampleDefaultConfig none none 0).map
      (·.cardId) = ["@0", "@1"] ∧
    (deriveBoard sampleServer2 sampleDefaultConfig none none 0).map
      (fun col => col.cards.map (·.cardId)) =
      [["@1", "@0"], [], [], [], []] := by
  constructor
  · decide
  · decide

theorem c4_order_witness :
    deriveBoard sampleServer2 sampleDefaultConfig none none 0 =
      sampleDefaultConfig.columns.map (fun col =>
        { id := col.id, title := col.title,
          cards := ((produceBoardCards sampleServer2 sampleDefaultConfig none
            none 0).filter
            (fun bc => destColId sampleDefaultConfig bc = some col.id)).reverse }) :=
  c4_board_order sampleServer2 sampleDefaultConfig none none 0 (by decide)
    (by decide)

/-! ## C1 — no data loss -/
/-- C1 (amended): for a well-formed store (record keys equal the cards' ids
and are distinct, no card has an empty or duplicated windowId, column ids
distinct) with at least one configured column, the total BoardCard count
across all derived columns equals the number of live windows excluding the
tool's own, plus the number of cards without a matching walked live window. -/
theorem c1_board_count (server : TmuxServer) (config : BoardConfig)
    (selfPaneId : Option String) (activityMap : Option ActivityMap) (now : Int)
    (hne : config.columns ≠ [])
    (hnd : (config.columns.map (·.id)).Nodup)
    (hk : (config.cards.map Prod.fst).Nodup)
    (hi : ∀ e ∈ config.cards, (e : String × Card).2.id = e.1)
    (he : ∀ e ∈ config.cards, (e : String × Card).2.windowId ≠ some "")
    (hw : (config.cards.filterMap (fun e => e.2.windowId)).Nodup) :
    ((deriveBoard server config selfPaneId activityMap now).map
        (fun col => col.cards.length)).sum =
      (walkedWindows server selfPaneId).length +
        config.cards.countP (fun e =>
          match e.2.windowId with
          | none => true
          | some w =>
            !((walkedWindows server selfPaneId).map
              (fun sw => sw.2.id)).contains w) :=
  deriveBoard_total_count server config selfPaneId activityMap now hne hnd hk
    hi he hw

/-- C1 counterexample: with an (empty-columns) store and two live windows,
every BoardCard is silently dropped during bucketing: the board total is 0
while the claim's formula gives 2. -/
theorem c1_count_counterexample :
    ((deriveBoard sampleServer2 noColumnsConfig none none 0).map
        (fun col => col.cards.length)).sum = 0 ∧
    (walkedWindows sampleServer2 none).length +
        noColumnsConfig.cards.countP (fun e =>
          match e.2.windowId with
          | none => true
          | some w =>
            !((walkedWindows sampleServer2 none).map
              (fun sw => sw.2.id)).contains w) = 2 := by
  constructor
  · decide
  · decide

theorem c1_count_witness :
    ((deriveBoard sampleServer2 sampleC1Config none none 0).map
        (fun col => col.cards.length)).sum =
      (walkedWindows sampleServer2 none).length +
        sampleC1Config.cards.countP (fun e =>
          match e.2.windowId with
          | none => true
          | some w =>
            !((walkedWindows sampleServer2 none).map
              (fun sw => sw.2.id)).contains w) :=
  c1_board_count sampleServer2 sampleC1Config none none 0 (by decide)
    (by decide) (by decide) (by decide) (by decide) (by decide)
